import Mathlib

/-!
# A verification development for the terminal text editor in `src/main.c`

The editor keeps its whole state in one global `struct editorConfig E`.  The
embedding below passes that state explicitly: every C function that reads or
writes `E` becomes a Lean function from `editorConfig` to `editorConfig`.

Conventions of the embedding

* A C buffer together with its length field is one Lean list: `row->chars`
  with `row->len` is `erow.chars : List Byte` (the terminating NUL that the C
  code keeps at index `len` is not part of the list), and `E.row` with
  `E.numrows` is `editorConfig.row : List erow`.  `erow.len` and
  `editorConfig.numrows` are the lengths of those lists, as C `int`s.
* The render cache `row->render` / `row->rlen` is stored separately, exactly
  as the code writes it: `render` is the list of bytes written so far and
  `rlen` is the value of the write index `idx`.
* C `int` values are Lean `Int`s.  `%` on `int` is truncated remainder,
  `Int.tmod`.  The 32-bit width is made explicit where a sum of `int`s can
  leave the range of `int`: the window tests and offset assignments of
  `editorScroll` and `editorInsertNewline` (`intOp`, two's-complement
  wrap-around, which is what the compiled program does), and the counter of
  `while (times--)` in the main loop (`whileTimes`).
* A pointer `erow *row` into `E.row` is the index of that row, as long as
  `E.row` is not reallocated while the pointer is live.  The one function that
  keeps such a pointer across a `realloc` of `E.row` is `editorInsertNewline`;
  its result is an `Option`, with `none` for the path that dereferences the
  stale pointer (undefined behaviour).
* Output functions return the list of bytes they pass to `write`.
-/

set_option autoImplicit false

namespace Kilo

/-! ## Data model -/

/-- One byte of text (`char`). -/
abbrev Byte := UInt8

/-- The tab byte. -/
def TAB : Byte := 9

/-- The newline byte. -/
def NEWLINE : Byte := 10

/-- The carriage-return byte. -/
def CR : Byte := 13

/-- The space byte. -/
def SPACE : Byte := 32

/-- Width of a tab stop: `#define EDITOR_TAB_STOP 4`. -/
def EDITOR_TAB_STOP : Int := 4

/-- A text row: `struct erow`.  `len` is the length of `chars`. -/
structure erow where
  /-- raw bytes of the line, `chars[0 .. len)` -/
  chars : List Byte
  /-- rendered bytes (tabs expanded), `render[0 .. idx)` as last written -/
  render : List Byte
  /-- rendered length as last written -/
  rlen : Int
deriving DecidableEq, Repr

/-- The field `row->len`. -/
def erow.len (row : erow) : Int := row.chars.length

/-- The global editor state: `struct editorConfig` (terminal settings left out). -/
structure editorConfig where
  cx : Int
  cy : Int
  rx : Int
  rowoff : Int
  coloff : Int
  screenrows : Int
  screencols : Int
  row : List erow
  dirty : Int
  filename : Option (List Byte)
  statusmsg : List Byte
  statusmsg_time : Int
deriving DecidableEq, Repr

/-- The field `E.numrows`. -/
def editorConfig.numrows (E : editorConfig) : Int := E.row.length

/-! ## The range of `int` -/

/-- Largest value of a C `int` (32 bits). -/
def INT_MAX : Int := 2147483647

/-- Smallest value of a C `int` (32 bits). -/
def INT_MIN : Int := -2147483648

/-- The integer `x` is a value of type `int`. -/
def isInt (x : Int) : Prop := INT_MIN ≤ x ∧ x ≤ INT_MAX

instance (x : Int) : Decidable (isInt x) := by
  unfold isInt
  infer_instance

/-- Two's-complement reduction of an integer to the range of `int`: the value
that an `int` computation with exact result `x` leaves in its target. -/
def wrapInt (x : Int) : Int := (x - INT_MIN) % 4294967296 + INT_MIN

/-- Value of an `int` expression over the operands `a` and `b` whose exact
value is `x`: for operands that are `int` values the exact value is reduced to
the range of `int`.  Integers outside that range are not values of any C
variable; for them the exact value is kept. -/
def intOp (a b x : Int) : Int := if isInt a ∧ isInt b then wrapInt x else x

/-! ## Render cache: `editorUpdateRow` -/

/-- First loop of `editorUpdateRow`: the number of tab bytes in the row. -/
def countTabs (chars : List Byte) : Int :=
  chars.foldl (fun tabs c => if c = TAB then tabs + 1 else tabs) 0

/-- Size passed to `malloc` for the render buffer. -/
def renderAlloc (row : erow) : Int :=
  row.len + countTabs row.chars * (EDITOR_TAB_STOP - 1) + 1

/-- The inner loop `while (idx % EDITOR_TAB_STOP != 0) row->render[idx++] = ' ';`
on the pair `(idx, render)`.  The first argument bounds the number of
iterations; with the bound `EDITOR_TAB_STOP` that `renderStep` passes, the loop
always ends by its own condition (`padToTabStop_exit`). -/
def padToTabStop : Nat → Int × List Byte → Int × List Byte
  | 0, s => s
  | fuel + 1, (idx, render) =>
    if Int.tmod idx EDITOR_TAB_STOP ≠ 0 then
      padToTabStop fuel (idx + 1, render ++ [SPACE])
    else (idx, render)

/-- Body of the second loop of `editorUpdateRow` for the input byte `c`, on
the pair `(idx, render)`. -/
def renderStep (s : Int × List Byte) (c : Byte) : Int × List Byte :=
  if c = TAB then
    padToTabStop EDITOR_TAB_STOP.toNat (s.1 + 1, s.2 ++ [SPACE])
  else (s.1 + 1, s.2 ++ [c])

/-- The function `editorUpdateRow`: rebuild `render` and `rlen` from `chars`. -/
def editorUpdateRow (row : erow) : erow :=
  let s := row.chars.foldl renderStep (0, [])
  { row with render := s.2, rlen := s.1 }

/-! ## Scrolling: `editorScroll` -/

/-- Body of the loop of `editorScroll` for the byte `c = row->chars[j]`. -/
def rxStep (rx : Int) (c : Byte) : Int :=
  let rx := if c = TAB then rx + ((EDITOR_TAB_STOP - 1) - Int.tmod rx EDITOR_TAB_STOP) else rx
  rx + 1

/-- The loop `for (int j = 0; j < E.cx; j++)` of `editorScroll`: the first
argument is the number of iterations left, the second is `j`.  A read of
`chars[len]` gives the terminating NUL. -/
def rxLoop (chars : List Byte) : Nat → Nat → Int → Int
  | 0, _, rx => rx
  | n + 1, j, rx => rxLoop chars n (j + 1) (rxStep rx (chars.getD j 0))

/-- First block of `editorScroll`: recompute `E.rx` from `E.cx` and the row
under the cursor. -/
def scrollComputeRx (E : editorConfig) : editorConfig :=
  let E := { E with rx := 0 }
  if E.cy < E.numrows then
    match E.row[E.cy.toNat]? with
    | some row => { E with rx := rxLoop row.chars E.cx.toNat 0 E.rx }
    | none => E
  else E

/-- Second block of `editorScroll`: the two `if`s on `E.rowoff`.  The sum
`E.rowoff + E.screenrows` and the expression `E.cy - E.screenrows + 1` are
`int` expressions and wrap around (`intOp`; reducing after the subtraction and
again after the addition gives the same value as reducing once). -/
def scrollVertical (E : editorConfig) : editorConfig :=
  let E := if E.cy < E.rowoff then { E with rowoff := E.cy } else E
  if E.cy ≥ intOp E.rowoff E.screenrows (E.rowoff + E.screenrows) then
    { E with rowoff := intOp E.cy E.screenrows (E.cy - E.screenrows + 1) }
  else E

/-- Third block of `editorScroll`: the two `if`s on `E.coloff`, with the same
`int` arithmetic as in `scrollVertical`. -/
def scrollHorizontal (E : editorConfig) : editorConfig :=
  let E := if E.rx < E.coloff then { E with coloff := E.rx } else E
  if E.rx ≥ intOp E.coloff E.screencols (E.coloff + E.screencols) then
    { E with coloff := intOp E.rx E.screencols (E.rx - E.screencols + 1) }
  else E

/-- The function `editorScroll`: its three blocks in sequence. -/
def editorScroll (E : editorConfig) : editorConfig :=
  scrollHorizontal (scrollVertical (scrollComputeRx E))

/-! ## Row operations -/

/-- The function `editorInsertRow(at, s, len)`: the bytes `s[0 .. len)` are the
list `s`.  The `memmove` shifts the rows from index `at` on by one place and
the new row is stored at index `at`.  Callers pass `0 ≤ at ≤ numrows`; the C
code writes outside the array for any other `at`. -/
def editorInsertRow (E : editorConfig) (at_ : Int) (s : List Byte) : editorConfig :=
  let newrow := editorUpdateRow { chars := s, render := [], rlen := 0 }
  { E with
    row := E.row.take at_.toNat ++ newrow :: E.row.drop at_.toNat
    dirty := 1 }

/-- The function `editorDelRow(at)`. -/
def editorDelRow (E : editorConfig) (at_ : Int) : editorConfig :=
  if at_ < 0 ∨ at_ ≥ E.numrows then E
  else { E with row := E.row.eraseIdx at_.toNat, dirty := 1 }

/-- The function `editorRowInsertChar(row, at, c)` where `row` is the row of
index `i` of the buffer; `c` is the byte that the assignment
`row->chars[at] = c` stores.  For an index `i` that is not a row of the buffer
nothing is done. -/
def editorRowInsertChar (E : editorConfig) (i : Nat) (at_ : Int) (c : Byte) : editorConfig :=
  match E.row[i]? with
  | none => E
  | some row =>
    let at_ := if at_ < 0 ∨ at_ > row.len then row.len else at_
    let row := { row with chars := row.chars.take at_.toNat ++ c :: row.chars.drop at_.toNat }
    let row := editorUpdateRow row
    { E with row := E.row.set i row, dirty := 1 }

/-- The function `editorRowDelChar(row, at)` where `row` is the row of index
`i` of the buffer.  For an index `i` that is not a row of the buffer nothing
is done. -/
def editorRowDelChar (E : editorConfig) (i : Nat) (at_ : Int) : editorConfig :=
  match E.row[i]? with
  | none => E
  | some row =>
    if at_ < 0 ∨ at_ ≥ row.len then E
    else
      let row := { row with chars := row.chars.eraseIdx at_.toNat }
      let row := editorUpdateRow row
      { E with row := E.row.set i row, dirty := 1 }

/-! ## Editor operations -/

/-- The function `editorInsertChar(c)`. -/
def editorInsertChar (E : editorConfig) (c : Byte) : editorConfig :=
  let E := if E.cy = E.numrows then editorInsertRow E E.numrows [] else E
  let E := editorRowInsertChar E E.cy.toNat E.cx c
  { E with cx := E.cx + 1 }

/-- The function `editorInsertNewline`.

For `E.cx == 0` it inserts an empty row at `E.cy`, moves the cursor to the
start of the next row and adjusts `E.rowoff` (an `int` test and assignment as
in `scrollVertical`).

For `E.cx != 0` the code takes `erow *row = &E.row[E.cy]`, then calls
`editorInsertRow(E.cy + 1, ...)`, whose first statement is
`E.row = realloc(E.row, ...)`, and then reads `row->chars` and writes
`row->chars`, `row->len` and the render cache through `row`.  After the
`realloc` the old array is deallocated and `row` points into it: every one of
those accesses is undefined behaviour, and the function has no defined result
(`none`). -/
def editorInsertNewline (E : editorConfig) : Option editorConfig :=
  if E.cx = 0 then
    let E := editorInsertRow E E.cy []
    let E := { E with cy := E.cy + 1, cx := 0, rx := 0, dirty := 1 }
    some (if E.cy ≥ intOp E.rowoff E.screenrows (E.rowoff + E.screenrows) then
      { E with rowoff := intOp E.cy E.screenrows (E.cy - E.screenrows + 1) }
    else E)
  else none

/-- The merge branch of `editorDelChar` (`E.cx <= 0`, `E.cy != 0`): append the
current row to the previous one and delete the current row. -/
def delCharMerge (E : editorConfig) : editorConfig :=
  match E.row[(E.cy - 1).toNat]?, E.row[E.cy.toNat]? with
  | some prev, some row =>
    let E := { E with cx := prev.len }
    let prev := editorUpdateRow { prev with chars := prev.chars ++ row.chars }
    let E := { E with row := E.row.set (E.cy - 1).toNat prev }
    let E := editorDelRow E E.cy
    { E with cy := E.cy - 1 }
  | _, _ => E

/-- The function `editorDelChar`. -/
def editorDelChar (E : editorConfig) : editorConfig :=
  if E.cy = E.numrows then E
  else if E.cx = 0 ∧ E.cy = 0 then E
  else if E.cx > 0 then
    let E := editorRowDelChar E E.cy.toNat (E.cx - 1)
    { E with cx := E.cx - 1 }
  else delCharMerge E

/-! ## File operations -/

/-- The function `editorRowsToString`: the returned buffer and `*buflen`. -/
def editorRowsToString (E : editorConfig) : List Byte × Int :=
  let totlen := E.row.foldl (fun totlen row => totlen + (row.len + 1)) 0
  let buf := E.row.foldl (fun buf row => buf ++ row.chars ++ [NEWLINE]) []
  (buf, totlen)

/-- The C library call `getline` on the unread part of a file: the bytes up to
and including the next newline (or up to the end of the file when there is
none), and what is left unread; `none` (the return value `-1`) at the end of
the file. -/
def getline : List Byte → Option (List Byte × List Byte)
  | [] => none
  | c :: cs =>
    if c = NEWLINE then some ([c], cs)
    else
      match getline cs with
      | none => some ([c], [])
      | some (line, rest) => some (c :: line, rest)

/-- The loop of `editorOpen` that lowers `linelen` while the last byte of the
line is a newline or a carriage return. -/
def stripLineEnd (line : List Byte) : List Byte :=
  line.rdropWhile (fun c => c == NEWLINE || c == CR)

/-- The loop `while ((linelen = getline(...)) != -1)` of `editorOpen` on the
unread part of the file.  The first argument bounds the number of iterations;
`none` when the bound is reached before the end of the file. -/
def openLoop : Nat → List Byte → editorConfig → Option editorConfig
  | 0, _, _ => none
  | fuel + 1, file, E =>
    match getline file with
    | none => some E
    | some (line, rest) => openLoop fuel rest (editorInsertRow E E.numrows (stripLineEnd line))

/-- The function `editorOpen(filename)` where `fopen` succeeds and the file
holds the bytes `file`. -/
def editorOpen (E : editorConfig) (filename : List Byte) (file : List Byte) :
    Option editorConfig :=
  let E := { E with filename := some filename }
  match openLoop (file.length + 1) file E with
  | none => none
  | some E => some { E with dirty := 0 }

/-! ## Initialisation -/

/-- The function `initEditor` where `getWindowSize` succeeds with `ws_row`
rows and `ws_col` columns. -/
def initEditor (ws_row ws_col : Int) : editorConfig :=
  { cx := 0, cy := 0, rx := 0, rowoff := 0, coloff := 0
    screenrows := ws_row - 2, screencols := ws_col
    row := [], dirty := 0, filename := none, statusmsg := [], statusmsg_time := 0 }

/-! ## Predicates of the specification -/

/-- Length of the row of index `i`, and 0 when there is no such row. -/
def editorConfig.rowlen (E : editorConfig) (i : Int) : Int :=
  match E.row[i.toNat]? with
  | some row => row.len
  | none => 0

/-- The cursor is valid: `0 ≤ cy ≤ numrows` and `0 ≤ cx ≤ len(row(cy))`, with
`cx = 0` when `cy = numrows`. -/
def cursorValid (E : editorConfig) : Prop :=
  0 ≤ E.cy ∧ E.cy ≤ E.numrows ∧ 0 ≤ E.cx ∧ E.cx ≤ E.rowlen E.cy

instance (E : editorConfig) : Decidable (cursorValid E) := by
  unfold cursorValid
  infer_instance

/-- The render cache of a row is consistent: `render` is what
`editorUpdateRow` computes from `chars`, and `rlen` is its length. -/
def erow.consistent (row : erow) : Prop :=
  row.render = (editorUpdateRow row).render ∧ row.rlen = (row.render.length : Int)

instance (row : erow) : Decidable row.consistent := by
  unfold erow.consistent
  infer_instance

/-- Every row of the buffer has a consistent render cache. -/
def rowsConsistent (E : editorConfig) : Prop :=
  ∀ row ∈ E.row, row.consistent

instance (E : editorConfig) : Decidable (rowsConsistent E) := by
  unfold rowsConsistent
  infer_instance

/-- No `int` expression of the window tests of `editorScroll` exceeds
`INT_MAX` in state `E`: the sums `rowoff + screenrows` and
`coloff + screencols` and the new offsets `cy - screenrows + 1` and
`rx - screencols + 1`, with `rx` as `editorScroll` recomputes it. -/
def scrollInRange (E : editorConfig) : Prop :=
  E.rowoff + E.screenrows ≤ INT_MAX ∧ E.cy - E.screenrows + 1 ≤ INT_MAX ∧
  E.coloff + E.screencols ≤ INT_MAX ∧ (scrollComputeRx E).rx - E.screencols + 1 ≤ INT_MAX

instance (E : editorConfig) : Decidable (scrollInRange E) := by
  unfold scrollInRange
  infer_instance

/-- The insert position of the spec: `at` itself when `0 ≤ at ≤ len`, and
`len` otherwise. -/
def specInsertPos (len at_ : Int) : Int :=
  if 0 ≤ at_ ∧ at_ ≤ len then at_ else len

/-- Number of spaces that replace a tab at output column `k`. -/
def tabFill (k : Nat) : Nat := 4 - k % 4

/-- The render of the spec, from output column `k` on. -/
def specRenderFrom : Nat → List Byte → List Byte
  | _, [] => []
  | k, c :: cs =>
    if c = TAB then List.replicate (tabFill k) SPACE ++ specRenderFrom (k + tabFill k) cs
    else c :: specRenderFrom (k + 1) cs

/-! ## Cursor movement: `editorMoveCursor` and the main loop -/

/-- Key code `BACKSPACE` of `enum editorKey`. -/
def BACKSPACE : Int := 127

/-- Key code `ARROW_LEFT` of `enum editorKey`. -/
def ARROW_LEFT : Int := 1000

/-- Key code `ARROW_RIGHT` of `enum editorKey`. -/
def ARROW_RIGHT : Int := 1001

/-- Key code `ARROW_UP` of `enum editorKey`. -/
def ARROW_UP : Int := 1002

/-- Key code `ARROW_DOWN` of `enum editorKey`. -/
def ARROW_DOWN : Int := 1003

/-- Key code `PAGE_UP` of `enum editorKey`. -/
def PAGE_UP : Int := 1004

/-- Key code `PAGE_DOWN` of `enum editorKey`. -/
def PAGE_DOWN : Int := 1005

/-- Key code `HOME_KEY` of `enum editorKey`. -/
def HOME_KEY : Int := 1006

/-- Key code `END_KEY` of `enum editorKey`. -/
def END_KEY : Int := 1007

/-- Key code `DEL_KEY` of `enum editorKey`. -/
def DEL_KEY : Int := 1008

/-- The `switch (key)` of `editorMoveCursor`.  The pointer `row` is not null
exactly when `E.cy < E.numrows`. -/
def moveCursorSwitch (E : editorConfig) (key : Int) : editorConfig :=
  if key = ARROW_LEFT then
    if E.cx > 0 then { E with cx := E.cx - 1 }
    else if E.cy > 0 then
      let E := { E with cy := E.cy - 1 }
      { E with cx := E.rowlen E.cy }
    else E
  else if key = ARROW_RIGHT then
    if E.cy < E.numrows ∧ E.cx < E.rowlen E.cy then { E with cx := E.cx + 1 }
    else if E.cy < E.numrows ∧ E.cx = E.rowlen E.cy then { E with cy := E.cy + 1, cx := 0 }
    else E
  else if key = ARROW_UP then
    if E.cy > 0 then { E with cy := E.cy - 1 } else E
  else if key = ARROW_DOWN then
    if E.cy < E.numrows then { E with cy := E.cy + 1 } else E
  else E

/-- The last block of `editorMoveCursor`: `rowlen` is the length of the row
under the cursor, 0 when there is none, and `E.cx` is lowered to it. -/
def moveCursorClamp (E : editorConfig) : editorConfig :=
  let rowlen := if E.cy ≥ E.numrows then 0 else E.rowlen E.cy
  if E.cx > rowlen then { E with cx := rowlen } else E

/-- The function `editorMoveCursor(key)`: the switch, then the clamp. -/
def editorMoveCursor (E : editorConfig) (key : Int) : editorConfig :=
  moveCursorClamp (moveCursorSwitch E key)

/-- Number of iterations of `while (times--)` for the 32-bit `int times`: the
value of `times` when it is not negative; a negative counter runs down through
`INT_MIN` and, with two's-complement wrap-around, reaches 0 after
`2^32 + times` iterations. -/
def whileTimes (times : Int) : Nat :=
  if 0 ≤ times then times.toNat else (times + 2 ^ 32).toNat

/-- The body `editorMoveCursor(key)` run `n` times in a row. -/
def repeatMoveCursor (key : Int) : Nat → editorConfig → editorConfig
  | 0, E => E
  | n + 1, E => repeatMoveCursor key n (editorMoveCursor E key)

/-- The `switch (c)` of the main loop in `main`, for the key `c` that
`editorReadKey` returned.  In the default case `editorInsertChar(c)` stores
`c` into a `char`.  The result is `none` where `editorInsertNewline` has no
defined result. -/
def mainLoopKey (E : editorConfig) (c : Int) : Option editorConfig :=
  if c = HOME_KEY then some { E with cx := 0 }
  else if c = END_KEY then
    some (if E.cy < E.numrows then { E with cx := E.rowlen E.cy } else E)
  else if c = PAGE_UP ∨ c = PAGE_DOWN then
    some (repeatMoveCursor (if c = PAGE_UP then ARROW_UP else ARROW_DOWN)
      (whileTimes E.screenrows) E)
  else if c = ARROW_UP ∨ c = ARROW_DOWN ∨ c = ARROW_LEFT ∨ c = ARROW_RIGHT then
    some (editorMoveCursor E c)
  else if c = 13 then editorInsertNewline E
  else if c = BACKSPACE ∨ c = DEL_KEY then some (editorDelChar E)
  else some (editorInsertChar E (UInt8.ofNat (c % 256).toNat))

/-! ## Write indices of `editorUpdateRow` -/

/-- The indices of `row->render` written by the inner loop
`while (idx % EDITOR_TAB_STOP != 0) row->render[idx++] = ' ';`, in order.  The
first argument bounds the number of iterations, as in `padToTabStop`. -/
def padWrites : Nat → Int → List Int
  | 0, _ => []
  | fuel + 1, idx =>
    if Int.tmod idx EDITOR_TAB_STOP ≠ 0 then idx :: padWrites fuel (idx + 1) else []

/-- The indices of `row->render` written by one iteration of the second loop
of `editorUpdateRow`, for the input byte `c` and the current `idx`. -/
def stepWrites (idx : Int) (c : Byte) : List Int :=
  if c = TAB then idx :: padWrites EDITOR_TAB_STOP.toNat (idx + 1) else [idx]

/-- The indices of `row->render` written by the second loop of
`editorUpdateRow` from `idx` on, followed by the index of the final
`row->render[idx] = 0`. -/
def renderWrites : Int → List Byte → List Int
  | idx, [] => [idx]
  | idx, c :: cs => stepWrites idx c ++ renderWrites (renderStep (idx, []) c).1 cs

/-! ## Output: the screen painter -/

/-- The conversion `%d` of `snprintf`: the decimal digits of `n`, with a
leading minus sign for a negative `n`. -/
def fmtInt (n : Int) : List Byte :=
  let digits := (Nat.toDigits 10 n.natAbs).map (fun ch => UInt8.ofNat ch.toNat)
  if n < 0 then 45 :: digits else digits

/-- One iteration of the loop of `editorDrawRows`, for the screen row `y`: the
bytes written.  `27, 91, 75` is the sequence `ESC [ K`, and `13, 10` is
`\r\n`. -/
def drawRow (E : editorConfig) (y : Int) : List Byte :=
  let filerow := y + E.rowoff
  let text :=
    if filerow < E.numrows then
      match E.row[filerow.toNat]? with
      | some row =>
        let len := row.rlen - E.coloff
        let len := if len < 0 then 0 else len
        let len := if len > E.screencols then E.screencols else len
        (row.render.drop E.coloff.toNat).take len.toNat
      | none => []
    else []
  text ++ [27, 91, 75] ++ (if y < E.screenrows - 1 then [13, 10] else [])

/-- The function `editorDrawRows`: the bytes written for the screen rows
`y = 0, ..., screenrows - 1`. -/
def editorDrawRows (E : editorConfig) : List Byte :=
  ((List.range E.screenrows.toNat).map (fun y => drawRow E (y : Int))).flatten

/-- The padding loop `while (len < E.screencols)` of `editorDrawStatusBar`:
the bytes written.  The first argument bounds the number of iterations. -/
def statusPad (screencols : Int) (rstatus : List Byte) : Nat → Int → List Byte
  | 0, _ => []
  | fuel + 1, len =>
    if len < screencols then
      if screencols - len = (rstatus.length : Int) then rstatus
      else 32 :: statusPad screencols rstatus fuel (len + 1)
    else []

/-- The function `editorDrawStatusBar`: the bytes written.  `status` is
`"%.20s - %d lines %s"` and `rstatus` is `"%d/%d"`; both fit their 80-byte
buffers.  `27, 91, 55, 109` is `ESC [ 7 m` and `27, 91, 109` is `ESC [ m`. -/
def editorDrawStatusBar (E : editorConfig) : List Byte :=
  let name := match E.filename with
    | some f => f
    | none => [91, 78, 111, 32, 78, 97, 109, 101, 93]
  let status := name.take 20 ++ [32, 45, 32] ++ fmtInt E.numrows ++
    [32, 108, 105, 110, 101, 115, 32] ++
    (if E.dirty ≠ 0 then [40, 109, 111, 100, 105, 102, 105, 101, 100, 41] else [])
  let len : Int := status.length
  let rstatus := fmtInt (E.cy + 1) ++ [47] ++ fmtInt E.numrows
  let len := if len > E.screencols then E.screencols else len
  [27, 91, 55, 109] ++ status.take len.toNat ++
    statusPad E.screencols rstatus (E.screencols - len).toNat len ++
    [27, 91, 109] ++ [13, 10]

/-- The final cursor positioning of `editorRefreshScreen`: the sequence
`ESC [ row ; col H`. -/
def cursorSequence (E : editorConfig) : List Byte :=
  [27, 91] ++ fmtInt ((E.cy - E.rowoff) + 1) ++ [59] ++ fmtInt ((E.rx - E.coloff) + 1) ++ [72]

/-- The function `editorRefreshScreen`: the state after `editorScroll` and
the bytes written to the terminal.  `27, 91, 63, 50, 53, 108` hides the
cursor, `27, 91, 72` moves it to the top left corner and
`27, 91, 63, 50, 53, 104` shows it again. -/
def editorRefreshScreen (E : editorConfig) : editorConfig × List Byte :=
  let E := editorScroll E
  (E, [27, 91, 63, 50, 53, 108] ++ [27, 91, 72] ++ editorDrawRows E ++ editorDrawStatusBar E ++
    cursorSequence E ++ [27, 91, 63, 50, 53, 104])

/-! ## The main loop -/

/-- One iteration of the main loop of `main`: `editorRefreshScreen`, then the
switch on the key `c` that `editorReadKey` returned. -/
def mainLoopCycle (E : editorConfig) (c : Int) : Option editorConfig :=
  mainLoopKey (editorRefreshScreen E).1 c

/-- The state of the main loop after the iterations for the keys `keys`, in
the order in which they were read; `none` as soon as one iteration has no
defined result. -/
def mainLoopRun : List Int → editorConfig → Option editorConfig
  | [], E => some E
  | c :: cs, E => (mainLoopCycle E c).bind (mainLoopRun cs)

/-! ## Sample states -/

/-- A three-row buffer, `a<TAB>b`, the empty row and `<TAB>x`, with the cursor
right after the tab of the first row and a window of 2 rows and 3 columns
scrolled away from the cursor. -/
def sampleState : editorConfig :=
  { cx := 2, cy := 0, rx := 0, rowoff := 3, coloff := 7, screenrows := 2, screencols := 3
    row := [⟨[97, TAB, 98], [97, SPACE, SPACE, SPACE, 98], 5⟩, ⟨[], [], 0⟩,
      ⟨[TAB, 120], [SPACE, SPACE, SPACE, SPACE, 120], 5⟩]
    dirty := 0, filename := none, statusmsg := [], statusmsg_time := 0 }

/-- A one-row buffer whose row is the single byte `b`. -/
def sampleOneRow (b : Byte) : editorConfig :=
  { initEditor 24 80 with row := [⟨[b], [b], 1⟩] }

/-- A two-row buffer whose last row is empty: the row `a` and the empty row. -/
def sampleTrailingEmpty : editorConfig :=
  { initEditor 24 80 with row := [⟨[97], [97], 1⟩, ⟨[], [], 0⟩] }

/-- A buffer of five empty rows with the cursor at `(0, 0)` in a window of 10
text rows. -/
def sampleFiveRows : editorConfig :=
  { initEditor 12 80 with row := List.replicate 5 ⟨[], [], 0⟩ }

/-- The single row `abc` with the cursor at its end, `(cx, cy) = (3, 0)`. -/
def sampleAbc : editorConfig :=
  { initEditor 24 80 with cx := 3, row := [⟨[97, 98, 99], [97, 98, 99], 3⟩] }

/-- A state with the transient message `Saved` just set: the row `hi`, the
cursor at `(0, 0)`, and a window of 2 text rows and 30 columns. -/
def sampleMessage : editorConfig :=
  { initEditor 4 30 with
    row := [⟨[104, 105], [104, 105], 2⟩]
    statusmsg := [83, 97, 118, 101, 100], statusmsg_time := 1000 }

/-- The keys Enter, `x` and Backspace, in this order. -/
def sampleKeys : List Int := [13, 120, BACKSPACE]

/-- A two-row buffer, the empty row and the row `a`, with the cursor at the end
of the second row, `(cx, cy) = (1, 1)`, both offsets 1, and a window of
`INT_MAX` rows and `INT_MAX` columns. -/
def sampleHugeWindow : editorConfig :=
  { initEditor 24 80 with
    cx := 1, cy := 1, rowoff := 1, coloff := 1, screenrows := INT_MAX, screencols := INT_MAX
    row := [⟨[], [], 0⟩, ⟨[97], [97], 1⟩] }

/-! ## Theorems -/

/-! ### Scrolling -/

theorem scrollComputeRx_frame (E : editorConfig) :
    (scrollComputeRx E).cx = E.cx ∧ (scrollComputeRx E).cy = E.cy ∧
    (scrollComputeRx E).rowoff = E.rowoff ∧ (scrollComputeRx E).coloff = E.coloff ∧
    (scrollComputeRx E).screenrows = E.screenrows ∧
    (scrollComputeRx E).screencols = E.screencols ∧ (scrollComputeRx E).row = E.row := by
  unfold scrollComputeRx
  simp only []
  split
  · split <;> simp
  · simp

theorem scrollVertical_frame (E : editorConfig) :
    (scrollVertical E).cx = E.cx ∧ (scrollVertical E).cy = E.cy ∧
    (scrollVertical E).rx = E.rx ∧ (scrollVertical E).coloff = E.coloff ∧
    (scrollVertical E).screenrows = E.screenrows ∧
    (scrollVertical E).screencols = E.screencols ∧ (scrollVertical E).row = E.row := by
  unfold scrollVertical
  simp only []
  split <;> split <;> simp

theorem scrollHorizontal_frame (E : editorConfig) :
    (scrollHorizontal E).cx = E.cx ∧ (scrollHorizontal E).cy = E.cy ∧
    (scrollHorizontal E).rx = E.rx ∧ (scrollHorizontal E).rowoff = E.rowoff ∧
    (scrollHorizontal E).screenrows = E.screenrows ∧
    (scrollHorizontal E).screencols = E.screencols ∧ (scrollHorizontal E).row = E.row := by
  unfold scrollHorizontal
  simp only []
  split <;> split <;> simp

theorem rxStep_nonneg (rx : Int) (c : Byte) (h : 0 ≤ rx) : 0 ≤ rxStep rx c := by
  unfold rxStep
  simp only []
  rw [Int.tmod_eq_emod h (by decide)]
  unfold EDITOR_TAB_STOP
  split <;> omega

theorem rxLoop_nonneg (chars : List Byte) (n : Nat) :
    ∀ (j : Nat) (rx : Int), 0 ≤ rx → 0 ≤ rxLoop chars n j rx := by
  induction n with
  | zero => intro j rx h; exact h
  | succ n ih =>
    intro j rx h
    exact ih (j + 1) _ (rxStep_nonneg rx _ h)

theorem scrollComputeRx_rx_nonneg (E : editorConfig) : 0 ≤ (scrollComputeRx E).rx := by
  unfold scrollComputeRx
  simp only []
  split_ifs
  · split
    · exact rxLoop_nonneg _ _ _ _ (le_refl _)
    · exact le_refl _
  · exact le_refl _

theorem scrollVertical_rowoff_eq (E : editorConfig) :
    (scrollVertical E).rowoff =
      if E.cy ≥ intOp (if E.cy < E.rowoff then E.cy else E.rowoff) E.screenrows
          ((if E.cy < E.rowoff then E.cy else E.rowoff) + E.screenrows) then
        intOp E.cy E.screenrows (E.cy - E.screenrows + 1)
      else if E.cy < E.rowoff then E.cy else E.rowoff := by
  unfold scrollVertical
  simp only []
  by_cases h : E.cy < E.rowoff
  · simp only [if_pos h]
    split_ifs <;> rfl
  · simp only [if_neg h]
    split_ifs <;> rfl

theorem scrollHorizontal_coloff_eq (E : editorConfig) :
    (scrollHorizontal E).coloff =
      if E.rx ≥ intOp (if E.rx < E.coloff then E.rx else E.coloff) E.screencols
          ((if E.rx < E.coloff then E.rx else E.coloff) + E.screencols) then
        intOp E.rx E.screencols (E.rx - E.screencols + 1)
      else if E.rx < E.coloff then E.rx else E.coloff := by
  unfold scrollHorizontal
  simp only []
  by_cases h : E.rx < E.coloff
  · simp only [if_pos h]
    split_ifs <;> rfl
  · simp only [if_neg h]
    split_ifs <;> rfl

theorem scrollVertical_bounds (E : editorConfig) (hr : 1 ≤ E.screenrows) (hcy : 0 ≤ E.cy) :
    (scrollVertical E).rowoff ≤ E.cy ∧ E.cy < (scrollVertical E).rowoff + E.screenrows := by
  rw [scrollVertical_rowoff_eq]
  unfold intOp isInt wrapInt INT_MIN INT_MAX
  split_ifs
  all_goals omega

theorem scrollHorizontal_bounds (E : editorConfig) (hc : 1 ≤ E.screencols) (hrx : 0 ≤ E.rx) :
    (scrollHorizontal E).coloff ≤ E.rx ∧ E.rx < (scrollHorizontal E).coloff + E.screencols := by
  rw [scrollHorizontal_coloff_eq]
  unfold intOp isInt wrapInt INT_MIN INT_MAX
  split_ifs
  all_goals omega

theorem padToTabStop_spec (idx : Int) (h : 0 ≤ idx) (r : List Byte) :
    padToTabStop EDITOR_TAB_STOP.toNat (idx, r) =
      (idx + (4 - idx % 4) % 4, r ++ List.replicate ((4 - idx % 4) % 4).toNat SPACE) := by
  have h4 : EDITOR_TAB_STOP.toNat = 4 := rfl
  have key : ∀ (n : Nat) (i : Int) (r : List Byte), 0 ≤ i → ((4 - i % 4) % 4).toNat ≤ n →
      padToTabStop n (i, r) =
        (i + (4 - i % 4) % 4, r ++ List.replicate ((4 - i % 4) % 4).toNat SPACE) := by
    intro n
    induction n with
    | zero =>
      intro i r hi hn
      have : (4 - i % 4) % 4 = 0 := by omega
      simp [padToTabStop, this]
    | succ n ih =>
      intro i r hi hn
      unfold padToTabStop
      rw [Int.tmod_eq_emod hi (by decide)]
      by_cases hz : i % EDITOR_TAB_STOP = 0
      · have hz4 : i % 4 = 0 := hz
        simp [hz, hz4]
      · have hz4 : i % 4 ≠ 0 := hz
        simp only [ne_eq, hz, not_false_eq_true, if_true]
        rw [ih (i + 1) (r ++ [SPACE]) (by omega) (by omega)]
        have e1 : (4 - (i + 1) % 4) % 4 + 1 = (4 - i % 4) % 4 := by omega
        have e2 : ((4 - i % 4) % 4).toNat = ((4 - (i + 1) % 4) % 4).toNat + 1 := by omega
        rw [e2, List.replicate_succ]
        simp only [List.append_assoc, List.singleton_append, Prod.mk.injEq, and_true]
        omega
  exact key 4 idx r h (by omega)


/-- The inner loop of `editorUpdateRow` ends by its own condition within
`EDITOR_TAB_STOP` iterations: the index it returns is a multiple of the tab
width. -/
theorem padToTabStop_exit (idx : Int) (h : 0 ≤ idx) (r : List Byte) :
    Int.tmod (padToTabStop EDITOR_TAB_STOP.toNat (idx, r)).1 EDITOR_TAB_STOP = 0 := by
  rw [padToTabStop_spec idx h r]
  simp only []
  rw [Int.tmod_eq_emod (by omega) (by decide)]
  unfold EDITOR_TAB_STOP
  omega

theorem renderStep_spec (k : Nat) (r : List Byte) (c : Byte) :
    renderStep ((k : Int), r) c =
      if c = TAB then (((k + tabFill k : Nat) : Int), r ++ List.replicate (tabFill k) SPACE)
      else (((k + 1 : Nat) : Int), r ++ [c]) := by
  unfold renderStep
  by_cases hc : c = TAB
  · simp only [hc, if_true]
    rw [padToTabStop_spec _ (by omega)]
    have e : tabFill k = ((4 - ((k : Int) + 1) % 4) % 4).toNat + 1 := by
      unfold tabFill; omega
    rw [e, List.replicate_succ]
    simp only [List.append_assoc, List.singleton_append, Prod.mk.injEq, and_true]
    omega
  · simp [hc]

theorem foldl_renderStep (l : List Byte) :
    ∀ (k : Nat) (r : List Byte),
      l.foldl renderStep ((k : Int), r) =
        (((k + (specRenderFrom k l).length : Nat) : Int), r ++ specRenderFrom k l) := by
  induction l with
  | nil => intro k r; simp [specRenderFrom]
  | cons c cs ih =>
    intro k r
    rw [List.foldl_cons, renderStep_spec]
    by_cases hc : c = TAB
    · simp only [hc, if_true, specRenderFrom]
      rw [ih]
      simp only [List.length_append, List.length_replicate, List.append_assoc, Prod.mk.injEq,
        and_true]
      omega
    · simp only [hc, if_false, specRenderFrom]
      rw [ih]
      simp only [List.length_cons, List.append_assoc, List.singleton_append, Prod.mk.injEq,
        and_true]
      omega

theorem editorUpdateRow_eq (row : erow) :
    editorUpdateRow row =
      { chars := row.chars
        render := specRenderFrom 0 row.chars
        rlen := ((specRenderFrom 0 row.chars).length : Int) } := by
  unfold editorUpdateRow
  have h := foldl_renderStep row.chars 0 []
  simp only [Nat.cast_zero, List.nil_append, zero_add] at h
  simp [h]

theorem specRenderFrom_append (p : List Byte) :
    ∀ (k : Nat) (q : List Byte),
      specRenderFrom k (p ++ q) =
        specRenderFrom k p ++ specRenderFrom (k + (specRenderFrom k p).length) q := by
  induction p with
  | nil => intro k q; simp [specRenderFrom]
  | cons c cs ih =>
    intro k q
    rw [List.cons_append]
    by_cases hc : c = TAB
    · simp only [specRenderFrom, hc, if_true]
      rw [ih, List.length_append, List.length_replicate, List.append_assoc, Nat.add_assoc]
    · simp only [specRenderFrom, hc, if_false]
      rw [ih, List.length_cons, List.cons_append]
      have e : k + 1 + (specRenderFrom (k + 1) cs).length
          = k + ((specRenderFrom (k + 1) cs).length + 1) := by omega
      rw [e]

theorem rxStep_spec (k : Nat) (c : Byte) :
    rxStep (k : Int) c = (((k + (specRenderFrom k [c]).length : Nat)) : Int) := by
  unfold rxStep
  rw [Int.tmod_eq_emod (by omega) (by decide)]
  by_cases hc : c = TAB
  · simp only [hc, if_true, specRenderFrom, List.append_nil, List.length_replicate]
    unfold tabFill EDITOR_TAB_STOP
    omega
  · simp [hc, specRenderFrom]

theorem foldl_rxStep (l : List Byte) :
    ∀ k : Nat, l.foldl rxStep (k : Int) = (((k + (specRenderFrom k l).length : Nat)) : Int) := by
  induction l with
  | nil => intro k; simp [specRenderFrom]
  | cons c cs ih =>
    intro k
    rw [List.foldl_cons, rxStep_spec, ih]
    have h := specRenderFrom_append [c] k cs
    simp only [List.singleton_append] at h
    rw [h, List.length_append]
    congr 1
    omega

theorem rxLoop_eq_foldl (chars : List Byte) :
    ∀ (n j : Nat) (rx : Int), j + n ≤ chars.length →
      rxLoop chars n j rx = ((chars.drop j).take n).foldl rxStep rx := by
  intro n
  induction n with
  | zero => intro j rx _; simp [rxLoop]
  | succ n ih =>
    intro j rx h
    have hj : j < chars.length := by omega
    rw [rxLoop, ih (j + 1) _ (by omega)]
    rw [List.drop_eq_getElem_cons hj, List.take_succ_cons, List.foldl_cons]
    simp [List.getD_eq_getElem, hj]


theorem scrollComputeRx_rx (E : editorConfig) (row : erow) (hcy0 : 0 ≤ E.cy)
    (hrow : E.row[E.cy.toNat]? = some row) :
    (scrollComputeRx E).rx = rxLoop row.chars E.cx.toNat 0 0 := by
  have hlt : E.cy.toNat < E.row.length := by
    rcases List.getElem?_eq_some_iff.mp hrow with ⟨h, -⟩
    exact h
  have hcy : E.cy < (E.row.length : Int) := by omega
  unfold scrollComputeRx
  simp only [editorConfig.numrows, hcy, if_true, hrow]

theorem editorScroll_rx (E : editorConfig) : (editorScroll E).rx = (scrollComputeRx E).rx := by
  obtain ⟨-, -, b3, -⟩ := scrollVertical_frame (scrollComputeRx E)
  obtain ⟨-, -, c3, -⟩ := scrollHorizontal_frame (scrollVertical (scrollComputeRx E))
  unfold editorScroll
  rw [c3, b3]

theorem editorUpdateRow_consistent (row : erow) : (editorUpdateRow row).consistent := by
  unfold erow.consistent
  simp [editorUpdateRow_eq]

theorem editorUpdateRow_chars (row : erow) : (editorUpdateRow row).chars = row.chars := by
  rw [editorUpdateRow_eq]

theorem rowsConsistent_set (E : editorConfig) (i : Nat) (row : erow) (d : Int)
    (h : rowsConsistent E) (hrow : row.consistent) :
    rowsConsistent { E with row := E.row.set i row, dirty := d } := by
  intro r hr
  rcases List.mem_or_eq_of_mem_set hr with h1 | h1
  · exact h r h1
  · rw [h1]; exact hrow

theorem editorInsertRow_consistent (E : editorConfig) (at_ : Int) (s : List Byte)
    (h : rowsConsistent E) : rowsConsistent (editorInsertRow E at_ s) := by
  intro r hr
  unfold editorInsertRow at hr
  simp only [List.mem_append, List.mem_cons] at hr
  rcases hr with h1 | h1 | h1
  · exact h r (List.mem_of_mem_take h1)
  · rw [h1]; exact editorUpdateRow_consistent _
  · exact h r (List.mem_of_mem_drop h1)

theorem editorDelRow_consistent (E : editorConfig) (at_ : Int)
    (h : rowsConsistent E) : rowsConsistent (editorDelRow E at_) := by
  unfold editorDelRow
  split
  · exact h
  · intro r hr
    exact h r (List.mem_of_mem_eraseIdx hr)

theorem editorRowInsertChar_consistent (E : editorConfig) (i : Nat) (at_ : Int) (c : Byte)
    (h : rowsConsistent E) : rowsConsistent (editorRowInsertChar E i at_ c) := by
  unfold editorRowInsertChar
  split
  · exact h
  · exact rowsConsistent_set E i _ 1 h (editorUpdateRow_consistent _)

theorem editorRowDelChar_consistent (E : editorConfig) (i : Nat) (at_ : Int)
    (h : rowsConsistent E) : rowsConsistent (editorRowDelChar E i at_) := by
  unfold editorRowDelChar
  split
  · exact h
  · split
    · exact h
    · exact rowsConsistent_set E i _ 1 h (editorUpdateRow_consistent _)

theorem rowsConsistent_congr (E E' : editorConfig) (hrow : E'.row = E.row)
    (h : rowsConsistent E) : rowsConsistent E' := by
  unfold rowsConsistent
  rw [hrow]
  exact h

theorem editorInsertChar_consistent (E : editorConfig) (c : Byte)
    (h : rowsConsistent E) : rowsConsistent (editorInsertChar E c) := by
  unfold editorInsertChar
  apply rowsConsistent_congr _ _ rfl
  apply editorRowInsertChar_consistent
  split
  · exact editorInsertRow_consistent _ _ _ h
  · exact h

theorem editorInsertNewline_undefined (E : editorConfig) (h : E.cx ≠ 0) :
    editorInsertNewline E = none := by
  unfold editorInsertNewline
  rw [if_neg h]

theorem editorInsertNewline_defined (E : editorConfig) (h : E.cx = 0) :
    ∃ E1 : editorConfig, editorInsertNewline E = some E1 := by
  unfold editorInsertNewline
  rw [if_pos h]
  exact ⟨_, rfl⟩

theorem editorInsertNewline_some (E E1 : editorConfig) (h : editorInsertNewline E = some E1) :
    E.cx = 0 ∧ E1.row = (editorInsertRow E E.cy []).row ∧ E1.cx = 0 ∧ E1.cy = E.cy + 1 ∧
    E1.dirty = 1 ∧ E1.coloff = E.coloff ∧ E1.screenrows = E.screenrows ∧
    E1.screencols = E.screencols ∧
    E1.rowoff =
      (if E.cy + 1 ≥ intOp E.rowoff E.screenrows (E.rowoff + E.screenrows) then
        intOp (E.cy + 1) E.screenrows (E.cy + 1 - E.screenrows + 1)
      else E.rowoff) := by
  unfold editorInsertNewline at h
  split_ifs at h with hz
  simp only [Option.some.injEq] at h
  subst h
  refine ⟨hz, ?_⟩
  simp only [editorInsertRow]
  by_cases hc : E.cy + 1 ≥ intOp E.rowoff E.screenrows (E.rowoff + E.screenrows)
  · simp only [if_pos hc]
    exact ⟨trivial, trivial, trivial, trivial, trivial, trivial, trivial, trivial⟩
  · simp only [if_neg hc]
    exact ⟨trivial, trivial, trivial, trivial, trivial, trivial, trivial, trivial⟩

theorem editorInsertNewline_consistent (E E1 : editorConfig)
    (h : rowsConsistent E) (he : editorInsertNewline E = some E1) : rowsConsistent E1 := by
  obtain ⟨-, hrow, -⟩ := editorInsertNewline_some E E1 he
  exact rowsConsistent_congr _ _ hrow (editorInsertRow_consistent _ _ _ h)

theorem delCharMerge_consistent (E : editorConfig)
    (h : rowsConsistent E) : rowsConsistent (delCharMerge E) := by
  unfold delCharMerge
  split
  · apply rowsConsistent_congr _ _ rfl
    apply editorDelRow_consistent
    intro r hr
    rcases List.mem_or_eq_of_mem_set hr with h1 | h1
    · exact h r h1
    · rw [h1]; exact editorUpdateRow_consistent _
  · exact h

theorem editorDelChar_consistent (E : editorConfig)
    (h : rowsConsistent E) : rowsConsistent (editorDelChar E) := by
  unfold editorDelChar
  split
  · exact h
  · split
    · exact h
    · split
      · apply rowsConsistent_congr _ _ rfl
        exact editorRowDelChar_consistent _ _ _ h
      · exact delCharMerge_consistent _ h


/-- C4 (render-cache consistency invariant), code defect in
`editorInsertNewline`: for a buffer whose rows all have a consistent render
cache and a valid cursor, `editorInsertRow`, `editorDelRow`,
`editorRowInsertChar`, `editorRowDelChar`, `editorInsertChar`, `editorDelChar`
and the `cx = 0` branch of `editorInsertNewline` leave every row with a
consistent render cache.  The split branch of `editorInsertNewline`
(`cx ≠ 0`) has no defined result: it rebuilds the render cache through a
pointer into the row array that `editorInsertRow` has reallocated.  At
`sampleState`, a consistent buffer with the valid cursor `(2, 0)`, Enter takes
that branch. -/
theorem render_cache_consistent_except_split (E : editorConfig)
    (hinv : rowsConsistent E) (_hcur : cursorValid E) :
    ((∀ (at_ : Int) (s : List Byte), 0 ≤ at_ → at_ ≤ E.numrows →
        rowsConsistent (editorInsertRow E at_ s)) ∧
      (∀ at_ : Int, rowsConsistent (editorDelRow E at_)) ∧
      (∀ (i : Nat) (at_ : Int) (c : Byte), i < E.row.length →
        rowsConsistent (editorRowInsertChar E i at_ c)) ∧
      (∀ (i : Nat) (at_ : Int), i < E.row.length →
        rowsConsistent (editorRowDelChar E i at_)) ∧
      (∀ c : Byte, rowsConsistent (editorInsertChar E c)) ∧
      rowsConsistent (editorDelChar E)) ∧
    ((E.cx = 0 → ∃ E1 : editorConfig, editorInsertNewline E = some E1 ∧ rowsConsistent E1) ∧
      (E.cx ≠ 0 → editorInsertNewline E = none)) ∧
    (rowsConsistent sampleState ∧ cursorValid sampleState ∧
      editorInsertNewline sampleState = none) := by
  refine ⟨⟨fun at_ s _ _ => editorInsertRow_consistent E at_ s hinv,
    fun at_ => editorDelRow_consistent E at_ hinv,
    fun i at_ c _ => editorRowInsertChar_consistent E i at_ c hinv,
    fun i at_ _ => editorRowDelChar_consistent E i at_ hinv,
    fun c => editorInsertChar_consistent E c hinv,
    editorDelChar_consistent E hinv⟩, ⟨?_, editorInsertNewline_undefined E⟩, by decide⟩
  intro hz
  obtain ⟨E1, h1⟩ := editorInsertNewline_defined E hz
  exact ⟨E1, h1, editorInsertNewline_consistent E E1 hinv h1⟩

/-! ### Serialisation and loading -/

theorem foldl_buf (rows : List erow) :
    ∀ acc : List Byte,
      rows.foldl (fun buf row => buf ++ row.chars ++ [NEWLINE]) acc =
        acc ++ (rows.map (fun row => row.chars ++ [NEWLINE])).flatten := by
  induction rows with
  | nil => intro acc; simp
  | cons r rs ih =>
    intro acc
    rw [List.foldl_cons, ih]
    simp

theorem foldl_totlen (rows : List erow) :
    ∀ acc : Int,
      rows.foldl (fun totlen row => totlen + (row.len + 1)) acc =
        acc + (rows.map (fun row => row.len + 1)).sum := by
  induction rows with
  | nil => intro acc; simp
  | cons r rs ih =>
    intro acc
    rw [List.foldl_cons, ih]
    simp only [List.map_cons, List.sum_cons]
    omega

theorem length_text (rows : List erow) :
    (((rows.map (fun row => row.chars ++ [NEWLINE])).flatten.length : Nat) : Int) =
      (rows.map (fun row => row.len + 1)).sum := by
  induction rows with
  | nil => simp
  | cons r rs ih =>
    simp only [List.map_cons, List.flatten_cons, List.length_append, List.sum_cons,
      Nat.cast_add, ih, erow.len]
    simp

theorem getline_row (chars : List Byte) (rest : List Byte) (h : NEWLINE ∉ chars) :
    getline (chars ++ NEWLINE :: rest) = some (chars ++ [NEWLINE], rest) := by
  induction chars with
  | nil => simp [getline]
  | cons c cs ih =>
    have hc : c ≠ NEWLINE := fun e => h (by simp [e])
    have hcs : NEWLINE ∉ cs := fun e => h (List.mem_cons_of_mem _ e)
    rw [List.cons_append, getline, if_neg hc, ih hcs]
    rfl

theorem stripLineEnd_row (chars : List Byte) (h1 : NEWLINE ∉ chars)
    (h2 : chars.getLast? ≠ some CR) : stripLineEnd (chars ++ [NEWLINE]) = chars := by
  unfold stripLineEnd
  rw [List.rdropWhile_concat]
  simp only [beq_self_eq_true, Bool.true_or, if_true]
  rw [List.rdropWhile_eq_self_iff]
  intro hl
  have hmem : chars.getLast hl ∈ chars := List.getLast_mem hl
  have hlast : chars.getLast? = some (chars.getLast hl) := List.getLast?_eq_getLast _ hl
  intro hp
  simp only [Bool.or_eq_true, beq_iff_eq] at hp
  rcases hp with hp | hp
  · exact h1 (hp ▸ hmem)
  · exact h2 (hp ▸ hlast)

theorem editorInsertRow_at_end (E : editorConfig) (s : List Byte) :
    (editorInsertRow E E.numrows s).row =
      E.row ++ [editorUpdateRow { chars := s, render := [], rlen := 0 }] := by
  unfold editorInsertRow editorConfig.numrows
  simp

theorem openLoop_text (rows : List erow) :
    ∀ (E : editorConfig) (fuel : Nat),
      (∀ row ∈ rows, NEWLINE ∉ row.chars ∧ row.chars.getLast? ≠ some CR) →
      (rows.map (fun row => row.chars ++ [NEWLINE])).flatten.length < fuel →
      ∃ E', openLoop fuel (rows.map (fun row => row.chars ++ [NEWLINE])).flatten E = some E' ∧
        E'.row.map erow.chars = E.row.map erow.chars ++ rows.map erow.chars := by
  induction rows with
  | nil =>
    intro E fuel _ hfuel
    cases fuel with
    | zero => simp at hfuel
    | succ n => exact ⟨E, by simp [openLoop, getline], by simp⟩
  | cons r rs ih =>
    intro E fuel hgood hfuel
    have hr := hgood r (List.mem_cons_self _ _)
    cases fuel with
    | zero => simp at hfuel
    | succ n =>
      simp only [List.map_cons, List.flatten_cons, List.length_append, List.length_singleton]
        at hfuel
      have hn : (rs.map (fun row => row.chars ++ [NEWLINE])).flatten.length < n := by omega
      obtain ⟨E', hE', hrows⟩ := ih (editorInsertRow E E.numrows r.chars) n
        (fun row hrow => hgood row (List.mem_cons_of_mem _ hrow)) hn
      refine ⟨E', ?_, ?_⟩
      · simp only [List.map_cons, List.flatten_cons, List.append_assoc, List.singleton_append]
        rw [openLoop, getline_row _ _ hr.1]
        simp only []
        rw [stripLineEnd_row _ hr.1 hr.2]
        exact hE'
      · rw [hrows, editorInsertRow_at_end]
        simp [editorUpdateRow_chars]

theorem set_of_getElem? {α : Type} (l : List α) (i : Nat) (a : α) (h : l[i]? = some a) :
    l.set i a = l := by
  apply List.ext_getElem?
  intro j
  rw [List.getElem?_set]
  by_cases hij : i = j
  · subst hij
    rcases List.getElem?_eq_some_iff.mp h with ⟨hlt, -⟩
    simp [hlt, h]
  · simp [hij]

theorem lt_length_of_getElem? {α : Type} (l : List α) (i : Nat) (a : α) (h : l[i]? = some a) :
    i < l.length := by
  rcases List.getElem?_eq_some_iff.mp h with ⟨hlt, -⟩
  exact hlt

theorem editorRowInsertChar_eq (E : editorConfig) (i : Nat) (row : erow) (at_ : Int) (c : Byte)
    (hrow : E.row[i]? = some row) :
    editorRowInsertChar E i at_ c =
      { E with
        row := E.row.set i (editorUpdateRow { row with
          chars := row.chars.take (specInsertPos row.len at_).toNat ++
            c :: row.chars.drop (specInsertPos row.len at_).toNat })
        dirty := 1 } := by
  have hpos : (if at_ < 0 ∨ at_ > row.len then row.len else at_) = specInsertPos row.len at_ := by
    unfold specInsertPos
    by_cases h : at_ < 0 ∨ at_ > row.len
    · rw [if_pos h, if_neg (by omega)]
    · rw [if_neg h, if_pos (by omega)]
  unfold editorRowInsertChar
  simp only [hrow, hpos]

theorem editorRowDelChar_eq (E : editorConfig) (i : Nat) (row : erow) (at_ : Int)
    (hrow : E.row[i]? = some row) (h0 : 0 ≤ at_) (h1 : at_ < row.len) :
    editorRowDelChar E i at_ =
      { E with
        row := E.row.set i (editorUpdateRow { row with chars := row.chars.eraseIdx at_.toNat })
        dirty := 1 } := by
  unfold editorRowDelChar
  simp only [hrow]
  rw [if_neg (by omega)]

/-- C8 (character insert with clamping): `editorRowInsertChar` never rejects;
with `at' = at` when `0 ≤ at ≤ len` and `at' = len` otherwise, the resulting
chars are `chars[0 .. at')`, then `ch`, then `chars[at' .. len)`, `len` grows
by exactly 1, and the dirty flag is set. -/
theorem editorRowInsertChar_clamps (E : editorConfig) (i : Nat) (row : erow) (at_ : Int)
    (ch : Byte) (hrow : E.row[i]? = some row) :
    ∃ row', (editorRowInsertChar E i at_ ch).row[i]? = some row' ∧
      row'.chars = row.chars.take (specInsertPos row.len at_).toNat ++
        ch :: row.chars.drop (specInsertPos row.len at_).toNat ∧
      row'.len = row.len + 1 ∧
      (editorRowInsertChar E i at_ ch).dirty = 1 := by
  have hlt := lt_length_of_getElem? _ _ _ hrow
  rw [editorRowInsertChar_eq E i row at_ ch hrow]
  refine ⟨_, List.getElem?_set_self hlt, editorUpdateRow_chars _, ?_, rfl⟩
  unfold erow.len
  rw [editorUpdateRow_chars]
  simp only [List.length_append, List.length_take, List.length_cons, List.length_drop]
  omega

/-- C9 (character delete): if `at < 0` or `at ≥ len` then `editorRowDelChar`
leaves the whole editor state unchanged; otherwise the resulting chars are
`chars[0 .. at)` followed by `chars[at+1 .. len)`, `len` shrinks by exactly 1,
and the dirty flag is set. -/
theorem editorRowDelChar_spec (E : editorConfig) (i : Nat) (row : erow) (at_ : Int)
    (hrow : E.row[i]? = some row) :
    ((at_ < 0 ∨ at_ ≥ row.len) → editorRowDelChar E i at_ = E) ∧
    (0 ≤ at_ → at_ < row.len →
      ∃ row', (editorRowDelChar E i at_).row[i]? = some row' ∧
        row'.chars = row.chars.take at_.toNat ++ row.chars.drop (at_.toNat + 1) ∧
        row'.len = row.len - 1 ∧
        (editorRowDelChar E i at_).dirty = 1) := by
  have hlt := lt_length_of_getElem? _ _ _ hrow
  constructor
  · intro h
    unfold editorRowDelChar
    simp only [hrow]
    rw [if_pos h]
  · intro h0 h1
    rw [editorRowDelChar_eq E i row at_ hrow h0 h1]
    refine ⟨_, List.getElem?_set_self hlt, ?_, ?_, rfl⟩
    · rw [editorUpdateRow_chars, List.eraseIdx_eq_take_drop_succ]
    · unfold erow.len at h1 ⊢
      rw [editorUpdateRow_chars, List.length_eraseIdx]
      rw [if_pos (by omega)]
      omega

theorem insert_then_delete_row (E : editorConfig) (i : Nat) (row : erow) (at_ : Int)
    (ch : Byte) (hrow : E.row[i]? = some row) (h0 : 0 ≤ at_) (h1 : at_ ≤ row.len) :
    (editorRowDelChar (editorRowInsertChar E i at_ ch) i at_).row =
      E.row.set i (editorUpdateRow row) := by
  have hlt := lt_length_of_getElem? _ _ _ hrow
  have hpos : specInsertPos row.len at_ = at_ := by
    unfold specInsertPos
    rw [if_pos ⟨h0, h1⟩]
  have hlen : at_.toNat ≤ row.chars.length := by
    unfold erow.len at h1
    omega
  rw [editorRowInsertChar_eq E i row at_ ch hrow, hpos]
  rw [editorRowDelChar_eq _ i _ at_ (List.getElem?_set_self hlt) h0
    (by unfold erow.len
        rw [editorUpdateRow_chars]
        simp only [List.length_append, List.length_take, List.length_cons, List.length_drop]
        omega)]
  simp only [List.set_set]
  have herase : (List.take at_.toNat row.chars ++ ch :: List.drop at_.toNat row.chars).eraseIdx
      at_.toNat = row.chars := by
    rw [List.eraseIdx_append_of_length_le (by simp [hlen])]
    simp [hlen]
  rw [editorUpdateRow_chars, editorUpdateRow_eq, editorUpdateRow_eq row]
  simp only [herase]

/-- C7 (insert-then-delete identity): for a row of the buffer, every byte `ch`
and every `at` with `0 ≤ at ≤ len`, `editorRowInsertChar(row, at, ch)` followed
by `editorRowDelChar(row, at)` leaves the row's chars and len as they were
before the insert, and its render and rlen too when the render cache of the
row was consistent (as it is for every row the editor builds); no other row of
the buffer changes. -/
theorem insert_then_delete_identity (E : editorConfig) (i : Nat) (row : erow) (at_ : Int)
    (ch : Byte) (hrow : E.row[i]? = some row) (h0 : 0 ≤ at_) (h1 : at_ ≤ row.len) :
    ∃ row', (editorRowDelChar (editorRowInsertChar E i at_ ch) i at_).row[i]? = some row' ∧
      row'.chars = row.chars ∧ row'.len = row.len ∧
      (row.consistent →
        row'.render = row.render ∧ row'.rlen = row.rlen ∧
        (editorRowDelChar (editorRowInsertChar E i at_ ch) i at_).row = E.row) := by
  have hlt := lt_length_of_getElem? _ _ _ hrow
  have hrows := insert_then_delete_row E i row at_ ch hrow h0 h1
  refine ⟨editorUpdateRow row, ?_, editorUpdateRow_chars _, ?_, ?_⟩
  · rw [hrows]
    exact List.getElem?_set_self hlt
  · unfold erow.len
    rw [editorUpdateRow_chars]
  · intro hcons
    obtain ⟨hr1, hr2⟩ := hcons
    have hself : editorUpdateRow row = row := by
      rw [editorUpdateRow_eq] at hr1 ⊢
      simp only [] at hr1
      rw [← hr1, ← hr2]
    rw [hrows, hself]
    exact ⟨rfl, rfl, set_of_getElem? _ _ _ hrow⟩

/-- C10 (row insert): for `0 ≤ at ≤ numrows`, `editorInsertRow(at, s)` yields
the rows `rows[0 .. at)`, then a new row with `chars = s`, then
`rows[at .. numrows)`; `numrows` grows by exactly 1 and the dirty flag is set. -/
theorem editorInsertRow_spec (E : editorConfig) (at_ : Int) (s : List Byte)
    (h0 : 0 ≤ at_) (h1 : at_ ≤ E.numrows) :
    ∃ newrow : erow, newrow.chars = s ∧ newrow.consistent ∧
      (editorInsertRow E at_ s).row =
        E.row.take at_.toNat ++ newrow :: E.row.drop at_.toNat ∧
      (editorInsertRow E at_ s).numrows = E.numrows + 1 ∧
      (editorInsertRow E at_ s).dirty = 1 := by
  refine ⟨editorUpdateRow { chars := s, render := [], rlen := 0 }, editorUpdateRow_chars _,
    editorUpdateRow_consistent _, rfl, ?_, rfl⟩
  unfold editorConfig.numrows at h1 ⊢
  unfold editorInsertRow
  simp only [List.length_append, List.length_take, List.length_cons, List.length_drop]
  omega


/-! ### Row deletion and cursor movement -/

/-- C11 (row delete): if `at < 0` or `at ≥ numrows` then `editorDelRow` leaves
the whole editor state unchanged; otherwise the rows are `rows[0 .. at)`
followed by `rows[at+1 .. numrows)`, `numrows` shrinks by exactly 1 and the
dirty flag is set. -/
theorem editorDelRow_spec (E : editorConfig) (at_ : Int) :
    ((at_ < 0 ∨ at_ ≥ E.numrows) → editorDelRow E at_ = E) ∧
    (0 ≤ at_ → at_ < E.numrows →
      (editorDelRow E at_).row = E.row.take at_.toNat ++ E.row.drop (at_.toNat + 1) ∧
      (editorDelRow E at_).numrows = E.numrows - 1 ∧
      (editorDelRow E at_).dirty = 1) := by
  constructor
  · intro h
    unfold editorDelRow
    rw [if_pos h]
  · intro h0 h1
    unfold editorDelRow
    rw [if_neg (by omega)]
    refine ⟨List.eraseIdx_eq_take_drop_succ _ _, ?_, rfl⟩
    unfold editorConfig.numrows at h1 ⊢
    simp only [List.length_eraseIdx]
    rw [if_pos (by omega)]
    omega

theorem rowlen_nonneg (E : editorConfig) (i : Int) : 0 ≤ E.rowlen i := by
  unfold editorConfig.rowlen
  split
  · unfold erow.len; omega
  · omega

theorem rowlen_absent (E : editorConfig) (i : Int) (h0 : 0 ≤ i) (h : E.numrows ≤ i) :
    E.rowlen i = 0 := by
  unfold editorConfig.numrows at h
  have hn : E.row[i.toNat]? = none := List.getElem?_eq_none (by omega)
  unfold editorConfig.rowlen
  rw [hn]

theorem rowlen_congr (E E' : editorConfig) (h : E'.row = E.row) (i : Int) :
    E'.rowlen i = E.rowlen i := by
  unfold editorConfig.rowlen
  rw [h]

theorem numrows_congr (E E' : editorConfig) (h : E'.row = E.row) : E'.numrows = E.numrows := by
  unfold editorConfig.numrows
  rw [h]

theorem moveCursorClamp_eq (E : editorConfig) (h0 : 0 ≤ E.cy) :
    moveCursorClamp E = { E with cx := min E.cx (E.rowlen E.cy) } := by
  have hr : (if E.cy ≥ E.numrows then 0 else E.rowlen E.cy) = E.rowlen E.cy := by
    split
    · rw [rowlen_absent E E.cy h0 (by omega)]
    · rfl
  unfold moveCursorClamp
  simp only [hr]
  split
  · rw [min_eq_right (by omega)]
  · rw [min_eq_left (by omega)]

theorem moveCursorSwitch_row (E : editorConfig) (key : Int) :
    (moveCursorSwitch E key).row = E.row ∧ (moveCursorSwitch E key).dirty = E.dirty := by
  unfold moveCursorSwitch
  split_ifs <;> exact ⟨rfl, rfl⟩

theorem moveCursorClamp_row (E : editorConfig) :
    (moveCursorClamp E).row = E.row ∧ (moveCursorClamp E).dirty = E.dirty ∧
    (moveCursorClamp E).cy = E.cy := by
  unfold moveCursorClamp
  simp only []
  split_ifs <;> exact ⟨rfl, rfl, rfl⟩

theorem editorMoveCursor_row (E : editorConfig) (key : Int) :
    (editorMoveCursor E key).row = E.row ∧ (editorMoveCursor E key).dirty = E.dirty := by
  unfold editorMoveCursor
  obtain ⟨h1, h2, -⟩ := moveCursorClamp_row (moveCursorSwitch E key)
  obtain ⟨h3, h4⟩ := moveCursorSwitch_row E key
  exact ⟨h1.trans h3, h2.trans h4⟩


theorem moveCursorSwitch_up (E : editorConfig) :
    moveCursorSwitch E ARROW_UP = if E.cy > 0 then { E with cy := E.cy - 1 } else E := by
  simp [moveCursorSwitch, ARROW_UP, ARROW_LEFT, ARROW_RIGHT]

theorem moveCursorSwitch_down (E : editorConfig) :
    moveCursorSwitch E ARROW_DOWN =
      if E.cy < E.numrows then { E with cy := E.cy + 1 } else E := by
  simp [moveCursorSwitch, ARROW_DOWN, ARROW_UP, ARROW_LEFT, ARROW_RIGHT]

theorem moveCursorSwitch_left (E : editorConfig) :
    moveCursorSwitch E ARROW_LEFT =
      if E.cx > 0 then { E with cx := E.cx - 1 }
      else if E.cy > 0 then { E with cy := E.cy - 1, cx := E.rowlen (E.cy - 1) }
      else E := by
  simp only [moveCursorSwitch, if_true]
  split_ifs <;> rfl

theorem moveCursorSwitch_right (E : editorConfig) :
    moveCursorSwitch E ARROW_RIGHT =
      if E.cy < E.numrows ∧ E.cx < E.rowlen E.cy then { E with cx := E.cx + 1 }
      else if E.cy < E.numrows ∧ E.cx = E.rowlen E.cy then { E with cy := E.cy + 1, cx := 0 }
      else E := by
  simp [moveCursorSwitch, ARROW_LEFT, ARROW_RIGHT]

/-- C16 (vertical cursor moves): for `0 ≤ cy ≤ numrows` and `cx ≥ 0`,
`editorMoveCursor(ARROW_UP)` sets `cy` to `max(cy - 1, 0)` and
`editorMoveCursor(ARROW_DOWN)` sets `cy` to `min(cy + 1, numrows)`; afterwards
`cx` is `min(old cx, len(row(new cy)))`, the length of the absent row at
`cy = numrows` being 0; the rows are not changed. -/
theorem editorMoveCursor_vertical (E : editorConfig)
    (h0 : 0 ≤ E.cy) (h1 : E.cy ≤ E.numrows) (_hcx : 0 ≤ E.cx) :
    ((editorMoveCursor E ARROW_UP).cy = max (E.cy - 1) 0 ∧
      (editorMoveCursor E ARROW_UP).cx = min E.cx (E.rowlen (max (E.cy - 1) 0)) ∧
      (editorMoveCursor E ARROW_UP).row = E.row) ∧
    ((editorMoveCursor E ARROW_DOWN).cy = min (E.cy + 1) E.numrows ∧
      (editorMoveCursor E ARROW_DOWN).cx = min E.cx (E.rowlen (min (E.cy + 1) E.numrows)) ∧
      (editorMoveCursor E ARROW_DOWN).row = E.row) := by
  constructor
  · unfold editorMoveCursor
    rw [moveCursorSwitch_up]
    by_cases h : E.cy > 0
    · have hm : max (E.cy - 1) 0 = E.cy - 1 := max_eq_left (by omega)
      rw [if_pos h, moveCursorClamp_eq _ (by simp only []; omega), hm]
      exact ⟨rfl, rfl, rfl⟩
    · have hm : max (E.cy - 1) 0 = 0 := max_eq_right (by omega)
      rw [if_neg h, moveCursorClamp_eq _ h0, hm]
      have h2 : E.cy = 0 := by omega
      simp only [h2]
      exact ⟨trivial, trivial, trivial⟩
  · unfold editorMoveCursor
    rw [moveCursorSwitch_down]
    by_cases h : E.cy < E.numrows
    · have hm : min (E.cy + 1) E.numrows = E.cy + 1 := min_eq_left (by omega)
      rw [if_pos h, moveCursorClamp_eq _ (by simp only []; omega), hm]
      exact ⟨rfl, rfl, rfl⟩
    · have hm : min (E.cy + 1) E.numrows = E.numrows := min_eq_right (by omega)
      rw [if_neg h, moveCursorClamp_eq _ h0, hm]
      have h2 : E.cy = E.numrows := by omega
      simp only [h2]
      exact ⟨trivial, trivial, trivial⟩


theorem moveCursorClamp_of_row (E E0 : editorConfig) (hrow : E.row = E0.row) (h0 : 0 ≤ E.cy) :
    moveCursorClamp E = { E with cx := min E.cx (E0.rowlen E.cy) } := by
  rw [moveCursorClamp_eq E h0, rowlen_congr E0 E hrow]

/-- C15 (horizontal cursor moves): for a valid cursor,
`editorMoveCursor(ARROW_LEFT)` gives `cx - 1` when `cx > 0`, gives
`(cy - 1, len(row(cy - 1)))` when `cx = 0` and `cy > 0`, and changes nothing
at `(0, 0)`; `editorMoveCursor(ARROW_RIGHT)` gives `cx + 1` when the row
exists and `cx < len(row(cy))`, gives `(cy + 1, 0)` when the row exists and
`cx = len(row(cy))`, and changes nothing when `cy = numrows`; neither changes
the rows (hence `numrows`) or the dirty flag. -/
theorem editorMoveCursor_horizontal (E : editorConfig) (h : cursorValid E) :
    ((0 < E.cx →
        (editorMoveCursor E ARROW_LEFT).cx = E.cx - 1 ∧
        (editorMoveCursor E ARROW_LEFT).cy = E.cy) ∧
      (E.cx = 0 → 0 < E.cy →
        (editorMoveCursor E ARROW_LEFT).cy = E.cy - 1 ∧
        (editorMoveCursor E ARROW_LEFT).cx = E.rowlen (E.cy - 1)) ∧
      (E.cx = 0 → E.cy = 0 → editorMoveCursor E ARROW_LEFT = E)) ∧
    ((E.cy < E.numrows → E.cx < E.rowlen E.cy →
        (editorMoveCursor E ARROW_RIGHT).cx = E.cx + 1 ∧
        (editorMoveCursor E ARROW_RIGHT).cy = E.cy) ∧
      (E.cy < E.numrows → E.cx = E.rowlen E.cy →
        (editorMoveCursor E ARROW_RIGHT).cy = E.cy + 1 ∧
        (editorMoveCursor E ARROW_RIGHT).cx = 0) ∧
      (E.cy = E.numrows → editorMoveCursor E ARROW_RIGHT = E)) ∧
    ((editorMoveCursor E ARROW_LEFT).row = E.row ∧
      (editorMoveCursor E ARROW_LEFT).dirty = E.dirty ∧
      (editorMoveCursor E ARROW_RIGHT).row = E.row ∧
      (editorMoveCursor E ARROW_RIGHT).dirty = E.dirty) := by
  obtain ⟨hcy0, hcy1, hcx0, hcx1⟩ := h
  refine ⟨⟨?_, ?_, ?_⟩, ⟨?_, ?_, ?_⟩, ?_⟩
  · intro hpos
    unfold editorMoveCursor
    rw [moveCursorSwitch_left, if_pos hpos, moveCursorClamp_of_row _ E (by rfl) (by exact hcy0)]
    simp only []
    exact ⟨min_eq_left (by omega), trivial⟩
  · intro hz hpos
    unfold editorMoveCursor
    rw [moveCursorSwitch_left, if_neg (by omega), if_pos hpos,
      moveCursorClamp_of_row _ E (by rfl) (by simp only []; omega)]
    simp only []
    exact ⟨trivial, min_eq_left (le_refl _)⟩
  · intro hz hz2
    unfold editorMoveCursor
    rw [moveCursorSwitch_left, if_neg (by omega), if_neg (by omega), moveCursorClamp_eq _ hcy0]
    have hm : min E.cx (E.rowlen E.cy) = E.cx := min_eq_left hcx1
    rw [hm]
  · intro hrow hlt
    unfold editorMoveCursor
    rw [moveCursorSwitch_right, if_pos ⟨hrow, hlt⟩,
      moveCursorClamp_of_row _ E (by rfl) (by exact hcy0)]
    simp only []
    exact ⟨min_eq_left (by omega), trivial⟩
  · intro hrow heq
    unfold editorMoveCursor
    rw [moveCursorSwitch_right, if_neg (by omega), if_pos ⟨hrow, heq⟩,
      moveCursorClamp_of_row _ E (by rfl) (by simp only []; omega)]
    simp only []
    exact ⟨trivial, min_eq_left (rowlen_nonneg _ _)⟩
  · intro hend
    unfold editorMoveCursor
    rw [moveCursorSwitch_right, if_neg (by omega), if_neg (by omega), moveCursorClamp_eq _ hcy0]
    have hm : min E.cx (E.rowlen E.cy) = E.cx := min_eq_left hcx1
    rw [hm]
  · exact ⟨(editorMoveCursor_row E ARROW_LEFT).1, (editorMoveCursor_row E ARROW_LEFT).2,
      (editorMoveCursor_row E ARROW_RIGHT).1, (editorMoveCursor_row E ARROW_RIGHT).2⟩


/-! ### The cursor range invariant under cursor moves -/

theorem cursorValid_of_row (E E0 : editorConfig) (hrow : E.row = E0.row)
    (h0 : 0 ≤ E.cy) (h1 : E.cy ≤ E0.numrows) (h2 : 0 ≤ E.cx) (h3 : E.cx ≤ E0.rowlen E.cy) :
    cursorValid E := by
  unfold cursorValid
  rw [numrows_congr E0 E hrow, rowlen_congr E0 E hrow]
  exact ⟨h0, h1, h2, h3⟩

theorem moveCursorSwitch_range (E : editorConfig) (key : Int) (h : cursorValid E) :
    0 ≤ (moveCursorSwitch E key).cy ∧ (moveCursorSwitch E key).cy ≤ E.numrows ∧
    0 ≤ (moveCursorSwitch E key).cx := by
  obtain ⟨hcy0, hcy1, hcx0, hcx1⟩ := h
  unfold moveCursorSwitch
  split_ifs <;> refine ⟨?_, ?_, ?_⟩ <;>
    first
    | exact rowlen_nonneg _ _
    | ((try simp only []); omega)

theorem editorMoveCursor_valid (E : editorConfig) (key : Int) (h : cursorValid E) :
    cursorValid (editorMoveCursor E key) := by
  obtain ⟨h1, h2, h3⟩ := moveCursorSwitch_range E key h
  have hrow := (moveCursorSwitch_row E key).1
  unfold editorMoveCursor
  rw [moveCursorClamp_of_row _ E hrow h1]
  exact cursorValid_of_row _ E hrow h1 h2 (le_min h3 (rowlen_nonneg _ _)) (min_le_right _ _)

theorem repeatMoveCursor_valid (key : Int) (n : Nat) :
    ∀ E : editorConfig, cursorValid E → cursorValid (repeatMoveCursor key n E) := by
  induction n with
  | zero => intro E h; exact h
  | succ n ih =>
    intro E h
    exact ih _ (editorMoveCursor_valid E key h)

theorem repeatMoveCursor_down (n : Nat) :
    ∀ E : editorConfig, 0 ≤ E.cy → E.cy ≤ E.numrows →
      (repeatMoveCursor ARROW_DOWN n E).cy = min (E.cy + n) E.numrows ∧
      (repeatMoveCursor ARROW_DOWN n E).row = E.row := by
  induction n with
  | zero =>
    intro E _ h1
    refine ⟨?_, rfl⟩
    show E.cy = min (E.cy + ((0 : Nat) : Int)) E.numrows
    rw [min_eq_left (by omega)]
    omega
  | succ n ih =>
    intro E h0 h1
    have hstep : (editorMoveCursor E ARROW_DOWN).cy = min (E.cy + 1) E.numrows ∧
        (editorMoveCursor E ARROW_DOWN).row = E.row := by
      unfold editorMoveCursor
      rw [moveCursorSwitch_down]
      by_cases h : E.cy < E.numrows
      · have hm : min (E.cy + 1) E.numrows = E.cy + 1 := min_eq_left (by omega)
        rw [if_pos h, hm]
        exact ⟨(moveCursorClamp_row _).2.2, (moveCursorClamp_row _).1⟩
      · have hm : min (E.cy + 1) E.numrows = E.cy := by
          rw [min_eq_right (by omega)]
          omega
        rw [if_neg h, hm]
        exact ⟨(moveCursorClamp_row _).2.2, (moveCursorClamp_row _).1⟩
    obtain ⟨hcy, hrow⟩ := hstep
    have hnum : (editorMoveCursor E ARROW_DOWN).numrows = E.numrows := numrows_congr E _ hrow
    have hle : (editorMoveCursor E ARROW_DOWN).cy ≤ E.numrows := by
      rw [hcy]
      exact min_le_right _ _
    have hge : 0 ≤ (editorMoveCursor E ARROW_DOWN).cy := by
      rw [hcy]
      exact le_min (by omega) (by omega)
    obtain ⟨ih1, ih2⟩ := ih (editorMoveCursor E ARROW_DOWN) hge (by rw [hnum]; exact hle)
    refine ⟨?_, ih2.trans hrow⟩
    rw [repeatMoveCursor, ih1, hnum, hcy]
    push_cast
    rcases le_total (E.cy + 1) E.numrows with hc | hc
    · rw [min_eq_left hc]
      congr 1
      omega
    · rw [min_eq_right hc, min_eq_right (by omega), min_eq_right (by omega)]

theorem mainLoopKey_pageDown (E : editorConfig) :
    mainLoopKey E PAGE_DOWN = some (repeatMoveCursor ARROW_DOWN (whileTimes E.screenrows) E) := by
  simp [mainLoopKey, PAGE_DOWN, PAGE_UP, HOME_KEY, END_KEY]

theorem mainLoopKey_pageDown_cy (E : editorConfig) (h : cursorValid E)
    (hs : 0 ≤ E.screenrows) :
    ∃ E1 : editorConfig, mainLoopKey E PAGE_DOWN = some E1 ∧
      E1.cy = min (E.cy + E.screenrows) E.numrows := by
  obtain ⟨hcy0, hcy1, -, -⟩ := h
  have hn : ((whileTimes E.screenrows : Nat) : Int) = E.screenrows := by
    unfold whileTimes
    rw [if_pos hs]
    omega
  refine ⟨_, mainLoopKey_pageDown E, ?_⟩
  rw [(repeatMoveCursor_down _ E hcy0 hcy1).1, hn]

/-- C14 (PageDown clamps at the end of the buffer): for a valid cursor and
`screenrows ≥ 0`, the PageDown case of the main loop (`screenrows` successive
Down moves) has a result, and it sets `cy` to `min(cy + screenrows, numrows)`;
with `screenrows = 10`, `cy = 0` and a 5-row buffer the resulting `cy` is 5. -/
theorem pageDown_clamps (E : editorConfig) (h : cursorValid E) (hs : 0 ≤ E.screenrows) :
    (∃ E1 : editorConfig, mainLoopKey E PAGE_DOWN = some E1 ∧
      E1.cy = min (E.cy + E.screenrows) E.numrows) ∧
    (sampleFiveRows.screenrows = 10 ∧ sampleFiveRows.cy = 0 ∧ sampleFiveRows.numrows = 5 ∧
      (mainLoopKey sampleFiveRows PAGE_DOWN).map (fun E1 => E1.cy) = some 5) := by
  refine ⟨mainLoopKey_pageDown_cy E h hs, by decide, by decide, by decide, ?_⟩
  obtain ⟨E1, h1, h2⟩ := mainLoopKey_pageDown_cy sampleFiveRows (by decide) (by decide)
  rw [h1, Option.map_some', h2]
  decide

/-! ### Splitting a list at an index -/

theorem list_split_at {α : Type} (l : List α) (n : Nat) (a : α) (h : l[n]? = some a) :
    l = l.take n ++ a :: l.drop (n + 1) ∧ (l.take n).length = n := by
  rcases List.getElem?_eq_some_iff.mp h with ⟨hlt, ha⟩
  constructor
  · rw [← ha, ← List.drop_eq_getElem_cons hlt, List.take_append_drop]
  · rw [List.length_take]
    omega

theorem getElem?_mid {α : Type} (pre post : List α) (a : α) :
    (pre ++ a :: post)[pre.length]? = some a := by
  rw [List.getElem?_append_right (le_refl _)]
  simp

theorem getElem?_mid_succ {α : Type} (pre post : List α) (a b : α) :
    (pre ++ a :: b :: post)[pre.length + 1]? = some b := by
  rw [List.getElem?_append_right (by omega)]
  simp

theorem set_mid {α : Type} (pre post : List α) (a b : α) :
    (pre ++ a :: post).set pre.length b = pre ++ b :: post := by
  simp

theorem take_mid {α : Type} (pre post : List α) : (pre ++ post).take pre.length = pre := by
  simp

theorem drop_mid {α : Type} (pre post : List α) : (pre ++ post).drop pre.length = post := by
  simp

theorem take_mid_succ {α : Type} (pre post : List α) (a : α) :
    (pre ++ a :: post).take (pre.length + 1) = pre ++ [a] := by
  have h := take_mid (pre ++ [a]) post
  simpa using h

theorem drop_mid_succ {α : Type} (pre post : List α) (a : α) :
    (pre ++ a :: post).drop (pre.length + 1) = post := by
  simp

theorem eraseIdx_mid_succ {α : Type} (pre post : List α) (a b : α) :
    (pre ++ a :: b :: post).eraseIdx (pre.length + 1) = pre ++ a :: post := by
  rw [List.eraseIdx_eq_take_drop_succ]
  have h1 := take_mid_succ pre (b :: post) a
  have h2 := drop_mid_succ (pre ++ [a]) post b
  simp only [List.append_assoc, List.singleton_append, List.length_append,
    List.length_singleton] at h2
  rw [h1, h2]
  simp

theorem rowlen_mid (E : editorConfig) (pre post : List erow) (a : erow) (i : Int)
    (hrow : E.row = pre ++ a :: post) (hi : i = (pre.length : Int)) :
    E.rowlen i = a.len := by
  have hn : i.toNat = pre.length := by omega
  unfold editorConfig.rowlen
  rw [hrow, hn, getElem?_mid]


/-! ### Enter: `editorInsertNewline` -/

theorem editorInsertNewline_rows (E : editorConfig) (row : erow)
    (hrow : E.row[E.cy.toNat]? = some row) (hz : E.cx = 0) :
    ∃ (E1 : editorConfig) (first second : erow), editorInsertNewline E = some E1 ∧
      first.chars = row.chars.take E.cx.toNat ∧ second.chars = row.chars.drop E.cx.toNat ∧
      E1.row = E.row.take E.cy.toNat ++ first :: second :: E.row.drop (E.cy.toNat + 1) ∧
      E1.numrows = E.numrows + 1 ∧ E1.cx = 0 ∧ E1.cy = E.cy + 1 ∧ E1.dirty = 1 := by
  obtain ⟨E1, h1⟩ := editorInsertNewline_defined E hz
  obtain ⟨-, f1, f2, f3, f4, -⟩ := editorInsertNewline_some E E1 h1
  obtain ⟨hsplit, hlen⟩ := list_split_at E.row E.cy.toNat row hrow
  have hrows : E1.row = E.row.take E.cy.toNat ++
      editorUpdateRow { chars := [], render := [], rlen := 0 } :: row ::
        E.row.drop (E.cy.toNat + 1) := by
    rcases List.getElem?_eq_some_iff.mp hrow with ⟨hlt, hget⟩
    rw [f1]
    unfold editorInsertRow
    simp only []
    rw [List.drop_eq_getElem_cons hlt, hget]
  refine ⟨E1, editorUpdateRow { chars := [], render := [], rlen := 0 }, row, h1, ?_, ?_,
    hrows, ?_, f2, f3, f4⟩
  · rw [editorUpdateRow_chars, hz]
    simp
  · rw [hz]
    simp
  · unfold editorConfig.numrows
    rw [hrows]
    have hl : E.row.length =
        (List.take E.cy.toNat E.row ++ row :: List.drop (E.cy.toNat + 1) E.row).length := by
      rw [← hsplit]
    rw [hl]
    simp only [List.length_append, List.length_cons]
    omega

/-- C18 (Enter splits the current row at the cursor), code defect in the split
branch: for a cursor on an existing row with `0 ≤ cx ≤ len`, the `cx = 0`
branch of `editorInsertNewline` yields the rows `rows[0 .. cy)`, then a row
with chars `chars[0 .. cx)`, then a row with chars `chars[cx .. len)`, then
`rows[cy+1 .. numrows)`, with `numrows` grown by exactly 1, the cursor at
`(0, cy + 1)` and the dirty flag set.  The split branch (`cx ≠ 0`) has no
defined result: it reads and writes the current row through the pointer `row`
taken before `editorInsertRow` has reallocated the row array.  From the single
row `abc` with the cursor at `(3, 0)` Enter takes the split branch. -/
theorem editorInsertNewline_split_undefined (E : editorConfig) (row : erow)
    (_hcy0 : 0 ≤ E.cy) (hrow : E.row[E.cy.toNat]? = some row)
    (_hcx0 : 0 ≤ E.cx) (_hcx : E.cx ≤ row.len) :
    (E.cx = 0 →
      ∃ (E1 : editorConfig) (first second : erow), editorInsertNewline E = some E1 ∧
        first.chars = row.chars.take E.cx.toNat ∧ second.chars = row.chars.drop E.cx.toNat ∧
        E1.row = E.row.take E.cy.toNat ++ first :: second :: E.row.drop (E.cy.toNat + 1) ∧
        E1.numrows = E.numrows + 1 ∧ E1.cx = 0 ∧ E1.cy = E.cy + 1 ∧ E1.dirty = 1) ∧
    (E.cx ≠ 0 → editorInsertNewline E = none) ∧
    (sampleAbc.row.map erow.chars = [[97, 98, 99]] ∧ sampleAbc.cx = 3 ∧ sampleAbc.cy = 0 ∧
      editorInsertNewline sampleAbc = none) :=
  ⟨editorInsertNewline_rows E row hrow, editorInsertNewline_undefined E, by decide⟩

/-! ### Backspace: `editorDelChar` -/

theorem delCharMerge_eq (E : editorConfig) (pre post : List erow) (a b : erow)
    (hrow : E.row = pre ++ a :: b :: post) (hcy : E.cy = (pre.length : Int) + 1) :
    (delCharMerge E).row =
        pre ++ editorUpdateRow { a with chars := a.chars ++ b.chars } :: post ∧
    (delCharMerge E).cx = a.len ∧ (delCharMerge E).cy = (pre.length : Int) := by
  have hn : E.cy.toNat = pre.length + 1 := by omega
  have hn1 : (E.cy - 1).toNat = pre.length := by omega
  have ha : E.row[(E.cy - 1).toNat]? = some a := by
    rw [hrow, hn1, getElem?_mid]
  have hb : E.row[E.cy.toNat]? = some b := by
    rw [hrow, hn, getElem?_mid_succ]
  have hnum : ¬ (E.cy < 0 ∨ E.cy ≥ ((pre ++ editorUpdateRow
      { a with chars := a.chars ++ b.chars } :: b :: post).length : Int)) := by
    simp only [List.length_append, List.length_cons]
    push_cast
    omega
  unfold delCharMerge
  simp only [ha, hb]
  unfold editorDelRow editorConfig.numrows
  simp only [hrow, hn1, set_mid]
  rw [if_neg hnum]
  simp only [hn, eraseIdx_mid_succ]
  exact ⟨trivial, trivial, by omega⟩

theorem editorDelChar_merge (E : editorConfig) (pre post : List erow) (a b : erow)
    (hrow : E.row = pre ++ a :: b :: post) (hcy : E.cy = (pre.length : Int) + 1)
    (hcx : E.cx = 0) :
    (editorDelChar E).row =
        pre ++ editorUpdateRow { a with chars := a.chars ++ b.chars } :: post ∧
    (editorDelChar E).cx = a.len ∧ (editorDelChar E).cy = (pre.length : Int) := by
  have hnum : E.numrows = (pre.length : Int) + 2 + post.length := by
    unfold editorConfig.numrows
    rw [hrow]
    simp only [List.length_append, List.length_cons]
    push_cast
    omega
  unfold editorDelChar
  rw [if_neg (by omega), if_neg (by omega), if_neg (by omega)]
  exact delCharMerge_eq E pre post a b hrow hcy

theorem map_chars_split (l : List erow) (n : Nat) (row first second : erow)
    (h : l[n]? = some row) (hc : first.chars ++ second.chars = row.chars) :
    (l.take n ++ editorUpdateRow { first with chars := first.chars ++ second.chars } ::
      l.drop (n + 1)).map erow.chars = l.map erow.chars := by
  obtain ⟨hsplit, -⟩ := list_split_at l n row h
  conv_rhs => rw [hsplit]
  simp only [List.map_append, List.map_cons, editorUpdateRow_chars, hc]

/-- C13 (Enter then Backspace restores the document), code defect in the split
branch of `editorInsertNewline`: for a cursor on an existing row with
`0 ≤ cx ≤ len`, Enter at `cx = 0` followed by `editorDelChar` yields the same
sequence of row chars, the same `numrows` and the same cursor `(cx, cy)` as
before.  For `cx ≠ 0` Enter has no defined result (use of the pointer `row`
after the row array was reallocated), so neither has the pair Enter,
Backspace.  The scenario of the single row `abc` with the cursor at `(3, 0)`
is of the second kind. -/
theorem enter_then_backspace_undefined (E : editorConfig) (row : erow)
    (hcy0 : 0 ≤ E.cy) (hrow : E.row[E.cy.toNat]? = some row)
    (_hcx0 : 0 ≤ E.cx) (_hcx : E.cx ≤ row.len) :
    (E.cx = 0 →
      ∃ E1 : editorConfig, editorInsertNewline E = some E1 ∧
        (editorDelChar E1).row.map erow.chars = E.row.map erow.chars ∧
        (editorDelChar E1).numrows = E.numrows ∧
        (editorDelChar E1).cx = E.cx ∧ (editorDelChar E1).cy = E.cy) ∧
    (E.cx ≠ 0 → (editorInsertNewline E).map editorDelChar = none) ∧
    (sampleAbc.row.map erow.chars = [[97, 98, 99]] ∧ sampleAbc.cx = 3 ∧ sampleAbc.cy = 0 ∧
      (editorInsertNewline sampleAbc).map editorDelChar = none) := by
  refine ⟨?_, ?_, by decide⟩
  · intro hz
    obtain ⟨hsplit, hlen⟩ := list_split_at E.row E.cy.toNat row hrow
    obtain ⟨E1, first, second, h0, h1, h2, h3, -, h5, h6, -⟩ :=
      editorInsertNewline_rows E row hrow hz
    obtain ⟨m1, m2, m3⟩ := editorDelChar_merge E1 (E.row.take E.cy.toNat)
      (E.row.drop (E.cy.toNat + 1)) first second h3 (by rw [h6, hlen]; omega) h5
    have hc : first.chars ++ second.chars = row.chars := by
      rw [h1, h2, List.take_append_drop]
    have hmap := map_chars_split E.row E.cy.toNat row first second hrow hc
    refine ⟨E1, h0, by rw [m1]; exact hmap, ?_, ?_, by rw [m3, hlen]; omega⟩
    · have hl := congrArg List.length hmap
      simp only [List.length_map] at hl
      unfold editorConfig.numrows
      rw [m1, hl]
    · rw [m2]
      unfold erow.len
      rw [h1, hz]
      simp
  · intro hz
    rw [editorInsertNewline_undefined E hz]
    rfl

/-! ### The cursor range invariant under editing -/

theorem rowlen_of_getElem? (E : editorConfig) (i : Int) (row : erow)
    (h : E.row[i.toNat]? = some row) : E.rowlen i = row.len := by
  unfold editorConfig.rowlen
  rw [h]

theorem cursor_row_exists (E : editorConfig) (h0 : 0 ≤ E.cy) (hlt : E.cy < E.numrows) :
    ∃ row, E.row[E.cy.toNat]? = some row := by
  unfold editorConfig.numrows at hlt
  have hn : E.cy.toNat < E.row.length := by omega
  exact ⟨E.row[E.cy.toNat], List.getElem?_eq_getElem hn⟩

theorem cursorValid_at_row (E : editorConfig) (row : erow)
    (h0 : 0 ≤ E.cy) (hrow : E.row[E.cy.toNat]? = some row)
    (hcx0 : 0 ≤ E.cx) (hcx : E.cx ≤ row.len) : cursorValid E := by
  have hlt := lt_length_of_getElem? _ _ _ hrow
  refine ⟨h0, ?_, hcx0, ?_⟩
  · unfold editorConfig.numrows
    omega
  · rw [rowlen_of_getElem? E E.cy row hrow]
    exact hcx

theorem editorInsertNewline_valid (E E1 : editorConfig) (h : cursorValid E)
    (he : editorInsertNewline E = some E1) : cursorValid E1 := by
  obtain ⟨hcy0, hcy1, -, -⟩ := h
  obtain ⟨-, f1, f2, f3, -⟩ := editorInsertNewline_some E E1 he
  have hnum : E1.numrows = E.numrows + 1 := by
    unfold editorConfig.numrows at hcy1 ⊢
    rw [f1]
    unfold editorInsertRow
    simp only [List.length_append, List.length_take, List.length_cons, List.length_drop]
    omega
  refine ⟨by omega, by omega, by omega, ?_⟩
  rw [f2]
  exact rowlen_nonneg _ _

theorem insertChar_at_row_valid (E : editorConfig) (row : erow) (c : Byte)
    (h0 : 0 ≤ E.cy) (hrow : E.row[E.cy.toNat]? = some row)
    (hcx0 : 0 ≤ E.cx) (hcx : E.cx ≤ row.len) :
    cursorValid { editorRowInsertChar E E.cy.toNat E.cx c with
      cx := (editorRowInsertChar E E.cy.toNat E.cx c).cx + 1 } := by
  have hlt := lt_length_of_getElem? _ _ _ hrow
  have hpos : specInsertPos row.len E.cx = E.cx := by
    unfold specInsertPos
    rw [if_pos ⟨hcx0, hcx⟩]
  rw [editorRowInsertChar_eq E E.cy.toNat row E.cx c hrow, hpos]
  refine cursorValid_at_row _ _ (by exact h0) (by exact List.getElem?_set_self hlt) ?_ ?_
  · show 0 ≤ E.cx + 1
    omega
  · show E.cx + 1 ≤ _
    unfold erow.len at hcx ⊢
    rw [editorUpdateRow_chars]
    simp only [List.length_append, List.length_take, List.length_cons, List.length_drop]
    omega

theorem editorInsertChar_valid (E : editorConfig) (c : Byte) (h : cursorValid E) :
    cursorValid (editorInsertChar E c) := by
  obtain ⟨hcy0, hcy1, hcx0, hcx1⟩ := h
  unfold editorInsertChar
  by_cases hend : E.cy = E.numrows
  · rw [rowlen_absent E E.cy hcy0 (by omega)] at hcx1
    have hn : E.cy.toNat = E.row.length := by
      unfold editorConfig.numrows at hend
      omega
    have hrow : (editorInsertRow E E.numrows []).row[E.cy.toNat]?
        = some (editorUpdateRow { chars := [], render := [], rlen := 0 }) := by
      rw [editorInsertRow_at_end, hn]
      simp
    simp only [if_pos hend]
    exact insertChar_at_row_valid (editorInsertRow E E.numrows []) _ c hcy0 hrow hcx0
      (by unfold erow.len
          rw [editorUpdateRow_chars]
          simpa using hcx1)
  · obtain ⟨row, hrow⟩ := cursor_row_exists E hcy0 (by omega)
    rw [rowlen_of_getElem? E E.cy row hrow] at hcx1
    simp only [if_neg hend]
    exact insertChar_at_row_valid E row c hcy0 hrow hcx0 hcx1

theorem cursorValid_mid (E : editorConfig) (pre post : List erow) (a : erow)
    (hrow : E.row = pre ++ a :: post) (hcy : E.cy = (pre.length : Int))
    (hcx0 : 0 ≤ E.cx) (hcx : E.cx ≤ a.len) : cursorValid E := by
  refine cursorValid_at_row E a (by omega) ?_ hcx0 hcx
  have hn : E.cy.toNat = pre.length := by omega
  rw [hrow, hn, getElem?_mid]

theorem editorDelChar_valid (E : editorConfig) (h : cursorValid E) :
    cursorValid (editorDelChar E) := by
  have h' := h
  obtain ⟨hcy0, hcy1, hcx0, hcx1⟩ := h
  by_cases hend : E.cy = E.numrows
  · unfold editorDelChar
    rw [if_pos hend]
    exact h'
  by_cases horigin : E.cx = 0 ∧ E.cy = 0
  · unfold editorDelChar
    rw [if_neg hend, if_pos horigin]
    exact h'
  obtain ⟨row, hrow⟩ := cursor_row_exists E hcy0 (by omega)
  rw [rowlen_of_getElem? E E.cy row hrow] at hcx1
  have hlt := lt_length_of_getElem? _ _ _ hrow
  by_cases hpos : E.cx > 0
  · unfold editorDelChar
    rw [if_neg hend, if_neg horigin, if_pos hpos]
    simp only []
    rw [editorRowDelChar_eq E E.cy.toNat row (E.cx - 1) hrow (by omega) (by omega)]
    refine cursorValid_at_row _ _ (by exact hcy0) (by exact List.getElem?_set_self hlt) ?_ ?_
    · show 0 ≤ E.cx - 1
      omega
    · show E.cx - 1 ≤ _
      unfold erow.len at hcx1 ⊢
      rw [editorUpdateRow_chars, List.length_eraseIdx, if_pos (by omega)]
      omega
  · have hcx : E.cx = 0 := by omega
    have hcy : 0 < E.cy := by omega
    have hprev : E.cy.toNat - 1 < E.row.length := by omega
    obtain ⟨hsplit, hlen⟩ := list_split_at E.row (E.cy.toNat - 1) _
      (List.getElem?_eq_getElem hprev)
    have hsucc : E.cy.toNat - 1 + 1 = E.cy.toNat := by omega
    rw [hsucc, List.drop_eq_getElem_cons hlt] at hsplit
    obtain ⟨m1, m2, m3⟩ := editorDelChar_merge E _ _ _ _ hsplit (by rw [hlen]; omega) hcx
    apply cursorValid_mid _ _ _ _ m1 m3
    · rw [m2]
      unfold erow.len
      omega
    · rw [m2]
      unfold erow.len
      rw [editorUpdateRow_chars]
      simp only [List.length_append]
      omega


theorem editorScroll_valid (E : editorConfig) (h : cursorValid E) :
    cursorValid (editorScroll E) := by
  obtain ⟨hcy0, hcy1, hcx0, hcx1⟩ := h
  obtain ⟨a1, a2, -, -, -, -, a7⟩ := scrollComputeRx_frame E
  obtain ⟨b1, b2, -, -, -, -, b7⟩ := scrollVertical_frame (scrollComputeRx E)
  obtain ⟨c1, c2, -, -, -, -, c7⟩ := scrollHorizontal_frame (scrollVertical (scrollComputeRx E))
  have hrow : (editorScroll E).row = E.row := by
    unfold editorScroll
    rw [c7, b7, a7]
  have hcx : (editorScroll E).cx = E.cx := by
    unfold editorScroll
    rw [c1, b1, a1]
  have hcy : (editorScroll E).cy = E.cy := by
    unfold editorScroll
    rw [c2, b2, a2]
  exact cursorValid_of_row _ E hrow (by rw [hcy]; exact hcy0) (by rw [hcy]; exact hcy1)
    (by rw [hcx]; exact hcx0) (by rw [hcx, hcy]; exact hcx1)

theorem mainLoopKey_valid (E E1 : editorConfig) (c : Int) (h : cursorValid E)
    (he : mainLoopKey E c = some E1) : cursorValid E1 := by
  have h' := h
  obtain ⟨hcy0, hcy1, hcx0, hcx1⟩ := h
  unfold mainLoopKey at he
  split_ifs at he
  · injection he with he
    rw [← he]
    exact cursorValid_of_row _ E rfl hcy0 hcy1 (le_refl _) (rowlen_nonneg _ _)
  · injection he with he
    rw [← he]
    exact cursorValid_of_row _ E rfl hcy0 hcy1 (rowlen_nonneg _ _) (le_refl _)
  · injection he with he
    rw [← he]
    exact h'
  · injection he with he
    rw [← he]
    exact repeatMoveCursor_valid _ _ E h'
  · injection he with he
    rw [← he]
    exact repeatMoveCursor_valid _ _ E h'
  · injection he with he
    rw [← he]
    exact editorMoveCursor_valid E c h'
  · exact editorInsertNewline_valid E E1 h' he
  · injection he with he
    rw [← he]
    exact editorDelChar_valid E h'
  · injection he with he
    rw [← he]
    exact editorInsertChar_valid E _ h'

theorem mainLoopKey_defined (E : editorConfig) (c : Int) (h : c ≠ 13 ∨ E.cx = 0) :
    ∃ E1 : editorConfig, mainLoopKey E c = some E1 := by
  unfold mainLoopKey
  split_ifs
  · exact ⟨_, rfl⟩
  · exact ⟨_, rfl⟩
  · exact ⟨_, rfl⟩
  · exact ⟨_, rfl⟩
  · exact ⟨_, rfl⟩
  · exact ⟨_, rfl⟩
  · rcases h with h | h
    · exact absurd ‹c = 13› h
    · exact editorInsertNewline_defined E h
  · exact ⟨_, rfl⟩
  · exact ⟨_, rfl⟩

theorem mainLoopKey_enter (E : editorConfig) : mainLoopKey E 13 = editorInsertNewline E := by
  unfold mainLoopKey
  rw [if_neg (by decide), if_neg (by decide), if_neg (by decide), if_neg (by decide),
    if_pos rfl]

/-- C12 (cursor range invariant), code defect in `editorInsertNewline`: the
predicate `0 ≤ cy ≤ numrows`, `0 ≤ cx ≤ len(row(cy))`, with `cx = 0` when
`cy = numrows`, holds in the initial state of `initEditor` and is preserved by
the arrow moves of `editorMoveCursor`, by `editorInsertChar` and
`editorDelChar`, by every case of the switch of the main loop that has a
result (Home, End, PageUp, PageDown, the arrows, Backspace, Delete, the
default insert, and Enter at `cx = 0`) and by the `editorScroll` of the draw
cycle in between.  Every key has a result except Enter at `cx ≠ 0`: there
`editorInsertNewline` uses the pointer `row` after the row array was
reallocated, and the transition has no defined state.  At `sampleState`, with
the valid cursor `(2, 0)`, Enter is such a transition. -/
theorem cursor_range_invariant_except_split (E : editorConfig) (h : cursorValid E) :
    (∀ ws_row ws_col : Int, cursorValid (initEditor ws_row ws_col)) ∧
    (cursorValid (editorMoveCursor E ARROW_LEFT) ∧ cursorValid (editorMoveCursor E ARROW_RIGHT) ∧
      cursorValid (editorMoveCursor E ARROW_UP) ∧ cursorValid (editorMoveCursor E ARROW_DOWN)) ∧
    ((∀ c : Byte, cursorValid (editorInsertChar E c)) ∧ cursorValid (editorDelChar E) ∧
      (∀ E1 : editorConfig, editorInsertNewline E = some E1 → cursorValid E1)) ∧
    (∀ (c : Int) (E1 : editorConfig), mainLoopKey E c = some E1 → cursorValid E1) ∧
    (∀ c : Int, c ≠ 13 ∨ E.cx = 0 → ∃ E1 : editorConfig, mainLoopKey E c = some E1) ∧
    cursorValid (editorScroll E) ∧
    (E.cx ≠ 0 → mainLoopKey E 13 = none) ∧
    (cursorValid sampleState ∧ mainLoopKey sampleState 13 = none) := by
  refine ⟨?_, ⟨?_, ?_, ?_, ?_⟩, ⟨?_, ?_, ?_⟩, ?_, ?_, ?_, ?_, by decide⟩
  · intro ws_row ws_col
    exact ⟨le_refl _, le_refl _, le_refl _, le_refl _⟩
  · exact editorMoveCursor_valid E _ h
  · exact editorMoveCursor_valid E _ h
  · exact editorMoveCursor_valid E _ h
  · exact editorMoveCursor_valid E _ h
  · exact fun c => editorInsertChar_valid E c h
  · exact editorDelChar_valid E h
  · exact fun E1 he => editorInsertNewline_valid E E1 h he
  · exact fun c E1 he => mainLoopKey_valid E E1 c h he
  · exact fun c hc => mainLoopKey_defined E c hc
  · exact editorScroll_valid E h
  · intro hz
    rw [mainLoopKey_enter, editorInsertNewline_undefined E hz]

/-! ### Minimal scrolling -/

theorem scrollVertical_rowoff (E : editorConfig) (hr : 1 ≤ E.screenrows)
    (hro : INT_MIN ≤ E.rowoff) (hv : E.rowoff + E.screenrows ≤ INT_MAX) :
    (scrollVertical E).rowoff =
      if E.cy < E.rowoff then E.cy
      else if E.cy ≥ E.rowoff + E.screenrows then E.cy - E.screenrows + 1
      else E.rowoff := by
  rw [scrollVertical_rowoff_eq]
  unfold intOp isInt wrapInt
  unfold INT_MIN INT_MAX at *
  split_ifs
  all_goals omega

theorem scrollHorizontal_coloff (E : editorConfig) (hc : 1 ≤ E.screencols) (hrx : 0 ≤ E.rx)
    (hh : E.coloff + E.screencols ≤ INT_MAX) :
    (scrollHorizontal E).coloff =
      if E.rx < E.coloff then E.rx
      else if E.rx ≥ E.coloff + E.screencols then E.rx - E.screencols + 1
      else E.coloff := by
  rw [scrollHorizontal_coloff_eq]
  unfold intOp isInt wrapInt INT_MIN
  unfold INT_MAX at *
  split_ifs
  all_goals omega

theorem scrollVertical_idem (E : editorConfig) (hr : 1 ≤ E.screenrows)
    (hmin : INT_MIN ≤ E.rowoff) (hv : E.rowoff + E.screenrows ≤ INT_MAX) :
    (scrollVertical (scrollVertical E)).rowoff = (scrollVertical E).rowoff := by
  obtain ⟨-, b2, -, -, b5, -, -⟩ := scrollVertical_frame E
  have hro := scrollVertical_rowoff E hr hmin hv
  rw [scrollVertical_rowoff_eq (scrollVertical E), b2, b5]
  generalize (scrollVertical E).rowoff = r at *
  unfold intOp isInt wrapInt
  unfold INT_MIN INT_MAX at *
  split_ifs at hro
  all_goals split_ifs
  all_goals omega

theorem scrollHorizontal_idem (E : editorConfig) (hc : 1 ≤ E.screencols) (hrx : 0 ≤ E.rx)
    (hh : E.coloff + E.screencols ≤ INT_MAX) :
    (scrollHorizontal (scrollHorizontal E)).coloff = (scrollHorizontal E).coloff := by
  obtain ⟨-, -, c3, -, -, c6, -⟩ := scrollHorizontal_frame E
  have hco := scrollHorizontal_coloff E hc hrx hh
  rw [scrollHorizontal_coloff_eq (scrollHorizontal E), c3, c6]
  generalize (scrollHorizontal E).coloff = r at *
  unfold intOp isInt wrapInt INT_MIN
  unfold INT_MAX at *
  split_ifs at hco
  all_goals split_ifs
  all_goals omega

theorem scrollVertical_congr (E E' : editorConfig) (hcy : E'.cy = E.cy)
    (hro : E'.rowoff = E.rowoff) (hsr : E'.screenrows = E.screenrows) :
    (scrollVertical E').rowoff = (scrollVertical E).rowoff := by
  rw [scrollVertical_rowoff_eq, scrollVertical_rowoff_eq, hcy, hro, hsr]

theorem scrollHorizontal_congr (E E' : editorConfig) (hrx : E'.rx = E.rx)
    (hco : E'.coloff = E.coloff) (hsc : E'.screencols = E.screencols) :
    (scrollHorizontal E').coloff = (scrollHorizontal E).coloff := by
  rw [scrollHorizontal_coloff_eq, scrollHorizontal_coloff_eq, hrx, hco, hsc]

theorem scrollComputeRx_congr (E E' : editorConfig) (hcx : E'.cx = E.cx) (hcy : E'.cy = E.cy)
    (hrow : E'.row = E.row) : (scrollComputeRx E').rx = (scrollComputeRx E).rx := by
  unfold scrollComputeRx editorConfig.numrows
  simp only [hcx, hcy, hrow]
  split_ifs
  · split <;> rfl
  · rfl

theorem editorScroll_frame (E : editorConfig) :
    (editorScroll E).cx = E.cx ∧ (editorScroll E).cy = E.cy ∧ (editorScroll E).row = E.row ∧
    (editorScroll E).screenrows = E.screenrows ∧ (editorScroll E).screencols = E.screencols := by
  obtain ⟨a1, a2, -, -, a5, a6, a7⟩ := scrollComputeRx_frame E
  obtain ⟨b1, b2, -, -, b5, b6, b7⟩ := scrollVertical_frame (scrollComputeRx E)
  obtain ⟨c1, c2, -, -, c5, c6, c7⟩ :=
    scrollHorizontal_frame (scrollVertical (scrollComputeRx E))
  unfold editorScroll
  exact ⟨by rw [c1, b1, a1], by rw [c2, b2, a2], by rw [c7, b7, a7], by rw [c5, b5, a5],
    by rw [c6, b6, a6]⟩

theorem editorScroll_fields (E : editorConfig) (hr : 1 ≤ E.screenrows)
    (hc : 1 ≤ E.screencols) (hro : INT_MIN ≤ E.rowoff) (hv : E.rowoff + E.screenrows ≤ INT_MAX)
    (hh : E.coloff + E.screencols ≤ INT_MAX) :
    (editorScroll E).rowoff =
      (if E.cy < E.rowoff then E.cy
        else if E.cy ≥ E.rowoff + E.screenrows then E.cy - E.screenrows + 1
        else E.rowoff) ∧
    (editorScroll E).coloff =
      (if (editorScroll E).rx < E.coloff then (editorScroll E).rx
        else if (editorScroll E).rx ≥ E.coloff + E.screencols then
          (editorScroll E).rx - E.screencols + 1
        else E.coloff) := by
  obtain ⟨a1, a2, a3, a4, a5, a6, a7⟩ := scrollComputeRx_frame E
  obtain ⟨b1, b2, b3, b4, b5, b6, b7⟩ := scrollVertical_frame (scrollComputeRx E)
  obtain ⟨c1, c2, c3, c4, c5, c6, c7⟩ :=
    scrollHorizontal_frame (scrollVertical (scrollComputeRx E))
  have hrx := scrollComputeRx_rx_nonneg E
  have hv := scrollVertical_rowoff (scrollComputeRx E) (by omega) (by rw [a3]; exact hro)
    (by rw [a3, a5]; exact hv)
  have hh := scrollHorizontal_coloff (scrollVertical (scrollComputeRx E)) (by omega)
    (by omega) (by rw [b4, b6, a4, a6]; exact hh)
  rw [a2, a3, a5] at hv
  rw [b3, b4, b6, a4, a6] at hh
  unfold editorScroll
  refine ⟨by rw [c4, hv], ?_⟩
  rw [c3, b3, hh]

theorem editorScroll_rx_idem (E : editorConfig) :
    (editorScroll (editorScroll E)).rx = (editorScroll E).rx := by
  obtain ⟨f1, f2, f3, -⟩ := editorScroll_frame E
  rw [editorScroll_rx, editorScroll_rx, scrollComputeRx_congr E (editorScroll E) f1 f2 f3]

theorem editorScroll_idem (E : editorConfig) (hr : 1 ≤ E.screenrows)
    (hc : 1 ≤ E.screencols) (hro : INT_MIN ≤ E.rowoff) (hv : E.rowoff + E.screenrows ≤ INT_MAX)
    (hh : E.coloff + E.screencols ≤ INT_MAX) :
    (editorScroll (editorScroll E)).rowoff = (editorScroll E).rowoff ∧
    (editorScroll (editorScroll E)).coloff = (editorScroll E).coloff := by
  obtain ⟨f1, f2, f3, f4, f5⟩ := editorScroll_frame E
  obtain ⟨a1, a2, a3, a4, a5, a6, a7⟩ := scrollComputeRx_frame E
  obtain ⟨b1, b2, b3, b4, b5, b6, b7⟩ := scrollVertical_frame (scrollComputeRx E)
  obtain ⟨c1, c2, c3, c4, c5, c6, c7⟩ :=
    scrollHorizontal_frame (scrollVertical (scrollComputeRx E))
  obtain ⟨p1, p2, p3, p4, p5, p6, p7⟩ := scrollComputeRx_frame (editorScroll E)
  obtain ⟨q1, q2, q3, q4, q5, q6, q7⟩ := scrollVertical_frame (scrollComputeRx (editorScroll E))
  obtain ⟨r1, r2, r3, r4, r5, r6, r7⟩ :=
    scrollHorizontal_frame (scrollVertical (scrollComputeRx (editorScroll E)))
  have hrx := scrollComputeRx_rx_nonneg E
  have hF : editorScroll E = scrollHorizontal (scrollVertical (scrollComputeRx E)) := rfl
  constructor
  · have e1 : (editorScroll (editorScroll E)).rowoff =
        (scrollVertical (scrollComputeRx (editorScroll E))).rowoff := r4
    have e2 := scrollVertical_congr (scrollVertical (scrollComputeRx E))
      (scrollComputeRx (editorScroll E)) (by rw [p2, f2, b2, a2])
      (by rw [p3, hF, c4]) (by rw [p5, f4, b5, a5])
    have e3 := scrollVertical_idem (scrollComputeRx E) (by omega) (by rw [a3]; exact hro)
      (by rw [a3, a5]; exact hv)
    rw [e1, e2, e3, hF, c4]
  · have e1 : (editorScroll (editorScroll E)).coloff =
        (scrollHorizontal (scrollVertical (scrollComputeRx (editorScroll E)))).coloff := rfl
    have hrx2 : (scrollComputeRx (editorScroll E)).rx = (scrollComputeRx E).rx :=
      scrollComputeRx_congr E (editorScroll E) f1 f2 f3
    have e2 := scrollHorizontal_congr (scrollHorizontal (scrollVertical (scrollComputeRx E)))
      (scrollVertical (scrollComputeRx (editorScroll E))) (by rw [q3, hrx2, c3, b3])
      (by rw [q4, p4, hF]) (by rw [q6, p6, f5, c6, b6, a6])
    have e3 := scrollHorizontal_idem (scrollVertical (scrollComputeRx E)) (by omega)
      (by omega) (by rw [b4, b6, a4, a6]; exact hh)
    rw [e1, e2, e3, hF]

/-- C19 (minimal scrolling), as amended: for `screenrows ≥ 1`, `screencols ≥ 1`
and offsets for which the `int` sums `rowoff + screenrows` and
`coloff + screencols` do not overflow (`rowoff` being an `int` value, both
sums are at most `INT_MAX`), `editorScroll` leaves `rowoff` unchanged
when `rowoff ≤ cy < rowoff + screenrows` and leaves `coloff` unchanged when
`coloff ≤ rx < coloff + screencols`; otherwise the new offset is `cy` (resp.
`rx`) or `cy - screenrows + 1` (resp. `rx - screencols + 1`), and it is, among
all offsets that make the cursor visible, one closest to the old offset.
Applying `editorScroll` twice gives the same offsets as applying it once. -/
theorem editorScroll_minimal (E : editorConfig) (hr : 1 ≤ E.screenrows)
    (hc : 1 ≤ E.screencols) (hro : INT_MIN ≤ E.rowoff) (hv : E.rowoff + E.screenrows ≤ INT_MAX)
    (hh : E.coloff + E.screencols ≤ INT_MAX) :
    ((E.rowoff ≤ E.cy ∧ E.cy < E.rowoff + E.screenrows → (editorScroll E).rowoff = E.rowoff) ∧
      (E.cy < E.rowoff → (editorScroll E).rowoff = E.cy) ∧
      (E.cy ≥ E.rowoff + E.screenrows → (editorScroll E).rowoff = E.cy - E.screenrows + 1) ∧
      (∀ o : Int, o ≤ E.cy → E.cy < o + E.screenrows →
        |(editorScroll E).rowoff - E.rowoff| ≤ |o - E.rowoff|)) ∧
    ((E.coloff ≤ (editorScroll E).rx ∧ (editorScroll E).rx < E.coloff + E.screencols →
        (editorScroll E).coloff = E.coloff) ∧
      ((editorScroll E).rx < E.coloff → (editorScroll E).coloff = (editorScroll E).rx) ∧
      ((editorScroll E).rx ≥ E.coloff + E.screencols →
        (editorScroll E).coloff = (editorScroll E).rx - E.screencols + 1) ∧
      (∀ o : Int, o ≤ (editorScroll E).rx → (editorScroll E).rx < o + E.screencols →
        |(editorScroll E).coloff - E.coloff| ≤ |o - E.coloff|)) ∧
    ((editorScroll (editorScroll E)).rowoff = (editorScroll E).rowoff ∧
      (editorScroll (editorScroll E)).coloff = (editorScroll E).coloff) := by
  obtain ⟨f6, f7⟩ := editorScroll_fields E hr hc hro hv hh
  have hidem := editorScroll_idem E hr hc hro hv hh
  generalize (editorScroll (editorScroll E)).rowoff = ro2 at *
  generalize (editorScroll (editorScroll E)).coloff = co2 at *
  generalize (editorScroll E).rx = rx at *
  generalize (editorScroll E).rowoff = ro at *
  generalize (editorScroll E).coloff = co at *
  refine ⟨⟨?_, ?_, ?_, ?_⟩, ⟨?_, ?_, ?_, ?_⟩, hidem⟩
  · intro h
    rw [f6, if_neg (by omega), if_neg (by omega)]
  · intro h
    rw [f6, if_pos h]
  · intro h
    rw [f6, if_neg (by omega), if_pos h]
  · intro o h1 h2
    rcases abs_cases (ro - E.rowoff) with ⟨e1, s1⟩ | ⟨e1, s1⟩ <;>
    rcases abs_cases (o - E.rowoff) with ⟨e2, s2⟩ | ⟨e2, s2⟩ <;>
    rw [e1, e2] <;> split_ifs at f6 <;> omega
  · intro h
    rw [f7, if_neg (by omega), if_neg (by omega)]
  · intro h
    rw [f7, if_pos h]
  · intro h
    rw [f7, if_neg (by omega), if_pos h]
  · intro o h1 h2
    rcases abs_cases (co - E.coloff) with ⟨e1, s1⟩ | ⟨e1, s1⟩ <;>
    rcases abs_cases (o - E.coloff) with ⟨e2, s2⟩ | ⟨e2, s2⟩ <;>
    rw [e1, e2] <;> split_ifs at f7 <;> omega

/-! ### Render buffer bound -/

theorem padWrites_eq (fuel : Nat) :
    ∀ k : Nat, (4 - (k % 4)) % 4 ≤ fuel →
      padWrites fuel (k : Int) = (List.range' k ((4 - (k % 4)) % 4)).map Nat.cast := by
  induction fuel with
  | zero =>
    intro k h
    have h0 : (4 - (k % 4)) % 4 = 0 := by omega
    rw [h0]
    rfl
  | succ n ih =>
    intro k h
    unfold padWrites
    rw [Int.tmod_eq_emod (by omega) (by decide)]
    by_cases hz : (k : Int) % EDITOR_TAB_STOP = 0
    · have hz4 : k % 4 = 0 := by
        unfold EDITOR_TAB_STOP at hz
        omega
      have h0 : (4 - (k % 4)) % 4 = 0 := by omega
      rw [h0]
      simp [hz]
    · have hz4 : k % 4 ≠ 0 := by
        unfold EDITOR_TAB_STOP at hz
        omega
      have hs : (4 - (k % 4)) % 4 = (4 - ((k + 1) % 4)) % 4 + 1 := by omega
      have hcast : ((k : Int) + 1) = ((k + 1 : Nat) : Int) := by push_cast; rfl
      simp only [ne_eq, hz, not_false_eq_true, if_true]
      rw [hcast, ih (k + 1) (by omega), hs, List.range'_succ]
      rfl


theorem stepWrites_eq (k : Nat) (c : Byte) :
    stepWrites (k : Int) c = (List.range' k (specRenderFrom k [c]).length).map Nat.cast := by
  unfold stepWrites
  by_cases hc : c = TAB
  · have hcast : ((k : Int) + 1) = ((k + 1 : Nat) : Int) := by push_cast; rfl
    have hfill : tabFill k = (4 - ((k + 1) % 4)) % 4 + 1 := by
      unfold tabFill
      omega
    have hfuel : EDITOR_TAB_STOP.toNat = 4 := rfl
    simp only [hc, if_true, specRenderFrom, List.append_nil, List.length_replicate]
    rw [hcast, hfuel, padWrites_eq 4 (k + 1) (by omega), hfill, List.range'_succ]
    rfl
  · simp only [hc, if_false, specRenderFrom, List.length_singleton]
    rfl

theorem renderStep_idx (k : Nat) (r : List Byte) (c : Byte) :
    (renderStep ((k : Int), r) c).1 = ((k + (specRenderFrom k [c]).length : Nat) : Int) := by
  rw [renderStep_spec]
  by_cases hc : c = TAB
  · simp only [hc, if_true, specRenderFrom, List.append_nil, List.length_replicate]
  · simp only [hc, if_false, specRenderFrom, List.length_singleton]

theorem renderWrites_eq (l : List Byte) :
    ∀ k : Nat, renderWrites (k : Int) l =
      (List.range' k ((specRenderFrom k l).length + 1)).map Nat.cast := by
  induction l with
  | nil =>
    intro k
    rfl
  | cons c cs ih =>
    intro k
    have happ := specRenderFrom_append [c] k cs
    rw [List.singleton_append] at happ
    rw [renderWrites, stepWrites_eq, renderStep_idx, ih, happ, List.length_append,
      ← List.map_append]
    have hr := List.range'_append k (specRenderFrom k [c]).length
      ((specRenderFrom (k + (specRenderFrom k [c]).length) cs).length + 1) 1
    rw [Nat.one_mul] at hr
    rw [hr]
    congr 2
    omega

theorem specRender_length_bounds (l : List Byte) :
    ∀ k : Nat, l.length ≤ (specRenderFrom k l).length ∧
      (specRenderFrom k l).length ≤ l.length + 3 * l.count TAB := by
  induction l with
  | nil =>
    intro k
    simp [specRenderFrom]
  | cons c cs ih =>
    intro k
    by_cases hc : c = TAB
    · obtain ⟨h1, h2⟩ := ih (k + tabFill k)
      have hf : 1 ≤ tabFill k ∧ tabFill k ≤ 4 := by
        unfold tabFill
        omega
      simp only [specRenderFrom, hc, if_true, List.length_append, List.length_replicate,
        List.length_cons, List.count_cons_self]
      omega
    · obtain ⟨h1, h2⟩ := ih (k + 1)
      have hne : (c == TAB) = false := by simpa using hc
      simp only [specRenderFrom, hc, if_false, List.length_cons, List.count_cons, hne]
      simp only [Bool.false_eq_true, if_false, Nat.add_zero]
      omega

theorem countTabs_eq (l : List Byte) : countTabs l = (l.count TAB : Int) := by
  have key : ∀ (l : List Byte) (a : Int),
      l.foldl (fun tabs c => if c = TAB then tabs + 1 else tabs) a = a + (l.count TAB : Int) := by
    intro l
    induction l with
    | nil => intro a; simp
    | cons c cs ih =>
      intro a
      rw [List.foldl_cons, ih]
      by_cases hc : c = TAB
      · simp only [hc, if_true, List.count_cons_self]
        push_cast
        omega
      · have hne : (c == TAB) = false := by simpa using hc
        simp only [hc, if_false, List.count_cons, hne]
        simp
  unfold countTabs
  rw [key]
  omega

theorem scrollComputeRx_statusmsg (E : editorConfig) (m : List Byte) (t : Int) :
    scrollComputeRx { E with statusmsg := m, statusmsg_time := t } =
      { scrollComputeRx E with statusmsg := m, statusmsg_time := t } := by
  unfold scrollComputeRx editorConfig.numrows
  simp only []
  split_ifs
  · split <;> rfl
  · rfl

theorem scrollVertical_statusmsg (E : editorConfig) (m : List Byte) (t : Int) :
    scrollVertical { E with statusmsg := m, statusmsg_time := t } =
      { scrollVertical E with statusmsg := m, statusmsg_time := t } := by
  unfold scrollVertical
  simp only []
  split_ifs <;> rfl

theorem scrollHorizontal_statusmsg (E : editorConfig) (m : List Byte) (t : Int) :
    scrollHorizontal { E with statusmsg := m, statusmsg_time := t } =
      { scrollHorizontal E with statusmsg := m, statusmsg_time := t } := by
  unfold scrollHorizontal
  simp only []
  split_ifs <;> rfl

theorem editorScroll_statusmsg (E : editorConfig) (m : List Byte) (t : Int) :
    editorScroll { E with statusmsg := m, statusmsg_time := t } =
      { editorScroll E with statusmsg := m, statusmsg_time := t } := by
  unfold editorScroll
  rw [scrollComputeRx_statusmsg, scrollVertical_statusmsg, scrollHorizontal_statusmsg]

theorem editorRefreshScreen_statusmsg (E : editorConfig) (m : List Byte) (t : Int) :
    (editorRefreshScreen { E with statusmsg := m, statusmsg_time := t }).2 =
      (editorRefreshScreen E).2 := by
  unfold editorRefreshScreen
  simp only []
  rw [editorScroll_statusmsg]
  rfl

/-- C17 (message line in the frame), as the code behaves: the bytes that
`editorRefreshScreen` emits are the same whatever `E.statusmsg` and
`E.statusmsg_time` are; the frame is the hide-cursor and home sequences, the
text rows, the status bar and then at once the cursor-positioning sequence.
In the sample state with the message `Saved` the frame holds the row `hi`,
an empty row, the status bar and the cursor sequence, and no message line. -/
theorem editorRefreshScreen_no_message_line :
    (∀ (E : editorConfig) (m : List Byte) (t : Int),
      (editorRefreshScreen { E with statusmsg := m, statusmsg_time := t }).2 =
        (editorRefreshScreen E).2) ∧
    (∀ E : editorConfig,
      (editorRefreshScreen E).2 =
        [27, 91, 63, 50, 53, 108] ++ [27, 91, 72] ++ editorDrawRows (editorScroll E) ++
          editorDrawStatusBar (editorScroll E) ++ cursorSequence (editorScroll E) ++
          [27, 91, 63, 50, 53, 104]) ∧
    (sampleMessage.statusmsg = [83, 97, 118, 101, 100] ∧
      (editorRefreshScreen sampleMessage).2 =
        [27, 91, 63, 50, 53, 108, 27, 91, 72,
          104, 105, 27, 91, 75, 13, 10,
          27, 91, 75,
          27, 91, 55, 109, 91, 78, 111, 32, 78, 97, 109, 101, 93, 32, 45, 32, 49, 32, 108, 105,
          110, 101, 115, 32, 32, 32, 32, 32, 32, 32, 32, 49, 47, 49, 27, 91, 109, 13, 10,
          27, 91, 49, 59, 49, 72,
          27, 91, 63, 50, 53, 104]) := by
  refine ⟨editorRefreshScreen_statusmsg, fun E => rfl, rfl, ?_⟩
  decide

/-! ### Scroll offsets stay non-negative -/

theorem scrollVertical_rowoff_nonneg (E : editorConfig) (hro : 0 ≤ E.rowoff)
    (hcy : 0 ≤ E.cy) (hv : E.rowoff + E.screenrows ≤ INT_MAX)
    (hw : E.cy - E.screenrows + 1 ≤ INT_MAX) : 0 ≤ (scrollVertical E).rowoff := by
  rw [scrollVertical_rowoff_eq]
  unfold intOp isInt wrapInt INT_MIN
  unfold INT_MAX at *
  split_ifs
  all_goals omega

theorem scrollHorizontal_coloff_nonneg (E : editorConfig) (hco : 0 ≤ E.coloff)
    (hrx : 0 ≤ E.rx) (hh : E.coloff + E.screencols ≤ INT_MAX)
    (hw : E.rx - E.screencols + 1 ≤ INT_MAX) : 0 ≤ (scrollHorizontal E).coloff := by
  rw [scrollHorizontal_coloff_eq]
  unfold intOp isInt wrapInt INT_MIN
  unfold INT_MAX at *
  split_ifs
  all_goals omega

theorem editorScroll_nonneg (E : editorConfig) (hro : 0 ≤ E.rowoff) (hco : 0 ≤ E.coloff)
    (hcy : 0 ≤ E.cy) (hs : scrollInRange E) :
    0 ≤ (editorScroll E).rx ∧ 0 ≤ (editorScroll E).rowoff ∧ 0 ≤ (editorScroll E).coloff := by
  obtain ⟨s1, s2, s3, s4⟩ := hs
  obtain ⟨-, a2, a3, a4, a5, a6, -⟩ := scrollComputeRx_frame E
  obtain ⟨-, -, b3, b4, -, b6, -⟩ := scrollVertical_frame (scrollComputeRx E)
  obtain ⟨-, -, c3, c4, -, -, -⟩ := scrollHorizontal_frame (scrollVertical (scrollComputeRx E))
  have hrx := scrollComputeRx_rx_nonneg E
  have hv := scrollVertical_rowoff_nonneg (scrollComputeRx E) (by rw [a3]; exact hro)
    (by rw [a2]; exact hcy) (by rw [a3, a5]; exact s1) (by rw [a2, a5]; exact s2)
  have hh := scrollHorizontal_coloff_nonneg (scrollVertical (scrollComputeRx E))
    (by rw [b4, a4]; exact hco) (by rw [b3]; exact hrx) (by rw [b4, b6, a4, a6]; exact s3)
    (by rw [b3, b6, a6]; exact s4)
  unfold editorScroll
  refine ⟨by rw [c3, b3]; exact hrx, by rw [c4]; exact hv, hh⟩

theorem editorMoveCursor_offsets (E : editorConfig) (key : Int) :
    (editorMoveCursor E key).rowoff = E.rowoff ∧ (editorMoveCursor E key).coloff = E.coloff := by
  have h1 : (moveCursorSwitch E key).rowoff = E.rowoff ∧
      (moveCursorSwitch E key).coloff = E.coloff := by
    unfold moveCursorSwitch
    split_ifs <;> exact ⟨rfl, rfl⟩
  have h2 : ∀ E1 : editorConfig, (moveCursorClamp E1).rowoff = E1.rowoff ∧
      (moveCursorClamp E1).coloff = E1.coloff := by
    intro E1
    unfold moveCursorClamp
    simp only []
    split_ifs <;> exact ⟨rfl, rfl⟩
  unfold editorMoveCursor
  exact ⟨(h2 _).1.trans h1.1, (h2 _).2.trans h1.2⟩

theorem repeatMoveCursor_offsets (key : Int) (n : Nat) :
    ∀ E : editorConfig, (repeatMoveCursor key n E).rowoff = E.rowoff ∧
      (repeatMoveCursor key n E).coloff = E.coloff := by
  induction n with
  | zero => intro E; exact ⟨rfl, rfl⟩
  | succ n ih =>
    intro E
    obtain ⟨h1, h2⟩ := ih (editorMoveCursor E key)
    obtain ⟨h3, h4⟩ := editorMoveCursor_offsets E key
    exact ⟨h1.trans h3, h2.trans h4⟩

theorem editorRowInsertChar_offsets (E : editorConfig) (i : Nat) (at_ : Int) (c : Byte) :
    (editorRowInsertChar E i at_ c).rowoff = E.rowoff ∧
    (editorRowInsertChar E i at_ c).coloff = E.coloff := by
  unfold editorRowInsertChar
  split <;> exact ⟨rfl, rfl⟩

theorem editorRowDelChar_offsets (E : editorConfig) (i : Nat) (at_ : Int) :
    (editorRowDelChar E i at_).rowoff = E.rowoff ∧
    (editorRowDelChar E i at_).coloff = E.coloff := by
  unfold editorRowDelChar
  split
  · exact ⟨rfl, rfl⟩
  · split <;> exact ⟨rfl, rfl⟩

theorem editorDelRow_offsets (E : editorConfig) (at_ : Int) :
    (editorDelRow E at_).rowoff = E.rowoff ∧ (editorDelRow E at_).coloff = E.coloff := by
  unfold editorDelRow
  split <;> exact ⟨rfl, rfl⟩

theorem editorInsertChar_offsets (E : editorConfig) (c : Byte) :
    (editorInsertChar E c).rowoff = E.rowoff ∧ (editorInsertChar E c).coloff = E.coloff := by
  unfold editorInsertChar
  simp only []
  obtain ⟨h1, h2⟩ := editorRowInsertChar_offsets
    (if E.cy = E.numrows then editorInsertRow E E.numrows [] else E)
    (if E.cy = E.numrows then editorInsertRow E E.numrows [] else E).cy.toNat
    (if E.cy = E.numrows then editorInsertRow E E.numrows [] else E).cx c
  have h3 : (if E.cy = E.numrows then editorInsertRow E E.numrows [] else E).rowoff = E.rowoff ∧
      (if E.cy = E.numrows then editorInsertRow E E.numrows [] else E).coloff = E.coloff := by
    split <;> exact ⟨rfl, rfl⟩
  exact ⟨h1.trans h3.1, h2.trans h3.2⟩

theorem delCharMerge_offsets (E : editorConfig) :
    (delCharMerge E).rowoff = E.rowoff ∧ (delCharMerge E).coloff = E.coloff := by
  unfold delCharMerge
  split
  · simp only []
    exact editorDelRow_offsets _ _
  · exact ⟨rfl, rfl⟩

theorem editorDelChar_offsets (E : editorConfig) :
    (editorDelChar E).rowoff = E.rowoff ∧ (editorDelChar E).coloff = E.coloff := by
  unfold editorDelChar
  split_ifs
  · exact ⟨rfl, rfl⟩
  · exact ⟨rfl, rfl⟩
  · exact editorRowDelChar_offsets _ _ _
  · exact delCharMerge_offsets E

theorem repeatMoveCursor_screenrows (key : Int) (n : Nat) :
    ∀ E : editorConfig, (repeatMoveCursor key n E).screenrows = E.screenrows := by
  induction n with
  | zero => intro E; rfl
  | succ n ih =>
    intro E
    have h1 : (editorMoveCursor E key).screenrows = E.screenrows := by
      unfold editorMoveCursor moveCursorClamp moveCursorSwitch
      simp only []
      split_ifs <;> rfl
    exact (ih (editorMoveCursor E key)).trans h1

theorem mainLoopKey_offsets (E E1 : editorConfig) (c : Int)
    (he : mainLoopKey E c = some E1) :
    E1.coloff = E.coloff ∧ E1.screenrows = E.screenrows ∧
    (E1.rowoff = E.rowoff ∨ editorInsertNewline E = some E1) := by
  have hmove := fun (key : Int) (n : Nat) => repeatMoveCursor_screenrows key n E
  unfold mainLoopKey at he
  split_ifs at he
  · injection he with he
    rw [← he]
    exact ⟨rfl, rfl, Or.inl rfl⟩
  · injection he with he
    rw [← he]
    exact ⟨rfl, rfl, Or.inl rfl⟩
  · injection he with he
    rw [← he]
    exact ⟨rfl, rfl, Or.inl rfl⟩
  · injection he with he
    rw [← he]
    obtain ⟨h1, h2⟩ := repeatMoveCursor_offsets ARROW_UP (whileTimes E.screenrows) E
    exact ⟨h2, hmove _ _, Or.inl h1⟩
  · injection he with he
    rw [← he]
    obtain ⟨h1, h2⟩ := repeatMoveCursor_offsets ARROW_DOWN (whileTimes E.screenrows) E
    exact ⟨h2, hmove _ _, Or.inl h1⟩
  · injection he with he
    rw [← he]
    obtain ⟨h1, h2⟩ := editorMoveCursor_offsets E c
    exact ⟨h2, hmove c 1, Or.inl h1⟩
  · obtain ⟨-, -, -, -, -, f5, f6, -⟩ := editorInsertNewline_some E E1 he
    exact ⟨f5, f6, Or.inr he⟩
  · injection he with he
    rw [← he]
    obtain ⟨h1, h2⟩ := editorDelChar_offsets E
    refine ⟨h2, ?_, Or.inl h1⟩
    unfold editorDelChar delCharMerge editorRowDelChar editorDelRow
    simp only []
    split_ifs <;> (repeat' split) <;> rfl
  · injection he with he
    rw [← he]
    obtain ⟨h1, h2⟩ := editorInsertChar_offsets E (UInt8.ofNat (c % 256).toNat)
    refine ⟨h2, ?_, Or.inl h1⟩
    unfold editorInsertChar editorRowInsertChar
    simp only []
    split_ifs <;> (repeat' split) <;> rfl

theorem scrollVertical_rowoff_range (E : editorConfig) (hro : 0 ≤ E.rowoff)
    (hcy : 0 ≤ E.cy) (hv : E.rowoff + E.screenrows ≤ INT_MAX)
    (hw : E.cy - E.screenrows + 1 ≤ INT_MAX) :
    0 ≤ (scrollVertical E).rowoff ∧
    ((scrollVertical E).rowoff + E.screenrows ≤ INT_MAX ∨
      (scrollVertical E).rowoff = E.cy - E.screenrows + 1) := by
  rw [scrollVertical_rowoff_eq]
  unfold intOp isInt wrapInt INT_MIN
  unfold INT_MAX at *
  split_ifs
  all_goals omega

theorem enter_after_scroll_rowoff (E E2 : editorConfig) (hro : 0 ≤ E.rowoff) (hcy : 0 ≤ E.cy)
    (hs : scrollInRange E) (he : editorInsertNewline (editorScroll E) = some E2)
    (hs2 : scrollInRange E2) : 0 ≤ E2.rowoff := by
  obtain ⟨s1, s2, -, -⟩ := hs
  obtain ⟨t1, t2, -, -⟩ := hs2
  obtain ⟨-, f2, -, f4, -⟩ := editorScroll_frame E
  obtain ⟨a1, a2, a3, a4, a5, a6, a7⟩ := scrollComputeRx_frame E
  obtain ⟨-, -, -, c4, -, -, -⟩ :=
    scrollHorizontal_frame (scrollVertical (scrollComputeRx E))
  have hF : (editorScroll E).rowoff = (scrollVertical (scrollComputeRx E)).rowoff := c4
  have hr := scrollVertical_rowoff_range (scrollComputeRx E) (by rw [a3]; exact hro)
    (by rw [a2]; exact hcy) (by rw [a3, a5]; exact s1) (by rw [a2, a5]; exact s2)
  rw [← hF, a2, a5] at hr
  obtain ⟨-, -, -, g3, -, -, g6, -, g8⟩ := editorInsertNewline_some (editorScroll E) E2 he
  rw [f2] at g3
  rw [f2, f4] at g8
  rw [g3, g6, f4] at t2
  rw [g6, f4] at t1
  clear hF
  generalize (editorScroll E).rowoff = r at *
  generalize E2.rowoff = r2 at *
  unfold intOp isInt wrapInt INT_MIN at g8
  unfold INT_MAX at *
  split_ifs at g8
  all_goals omega

theorem mainLoopCycle_invariant (E E1 : editorConfig) (c : Int) (h : cursorValid E)
    (hro : 0 ≤ E.rowoff) (hco : 0 ≤ E.coloff) (hs : scrollInRange E)
    (he : mainLoopCycle E c = some E1) (hs1 : scrollInRange E1) :
    cursorValid E1 ∧ 0 ≤ E1.rowoff ∧ 0 ≤ E1.coloff := by
  obtain ⟨-, n2, n3⟩ := editorScroll_nonneg E hro hco h.1 hs
  have hv := editorScroll_valid E h
  have he' : mainLoopKey (editorScroll E) c = some E1 := he
  obtain ⟨o1, -, o3⟩ := mainLoopKey_offsets (editorScroll E) E1 c he'
  refine ⟨mainLoopKey_valid (editorScroll E) E1 c hv he', ?_, by rw [o1]; exact n3⟩
  rcases o3 with o3 | o3
  · rw [o3]
    exact n2
  · exact enter_after_scroll_rowoff E E1 hro h.1 hs o3 hs1

theorem mainLoopRun_invariant (keys : List Int) :
    ∀ E : editorConfig, cursorValid E → 0 ≤ E.rowoff → 0 ≤ E.coloff →
      (∀ (ks : List Int) (E1 : editorConfig), ks <+: keys → mainLoopRun ks E = some E1 →
        scrollInRange E1) →
      ∀ E2 : editorConfig, mainLoopRun keys E = some E2 →
        cursorValid E2 ∧ 0 ≤ E2.rowoff ∧ 0 ≤ E2.coloff := by
  induction keys with
  | nil =>
    intro E h hro hco _ E2 he
    injection he with he
    rw [← he]
    exact ⟨h, hro, hco⟩
  | cons c cs ih =>
    intro E h hro hco hsafe E2 he
    obtain ⟨E1, hc, hrun⟩ := Option.bind_eq_some.mp he
    have hstep : ∀ ks : List Int, mainLoopRun (c :: ks) E = mainLoopRun ks E1 := by
      intro ks
      show (mainLoopCycle E c).bind (mainLoopRun ks) = mainLoopRun ks E1
      rw [hc]
      rfl
    have hs0 : scrollInRange E := hsafe [] E List.nil_prefix rfl
    have hs1 : scrollInRange E1 :=
      hsafe [c] E1 ((List.prefix_cons_inj c).2 List.nil_prefix) (by rw [hstep]; rfl)
    obtain ⟨v1, v2, v3⟩ := mainLoopCycle_invariant E E1 c h hro hco hs0 hc hs1
    refine ih E1 v1 v2 v3 ?_ E2 hrun
    intro ks E3 hp hr
    exact hsafe (c :: ks) E3 ((List.prefix_cons_inj c).2 hp) (by rw [hstep]; exact hr)

theorem openLoop_view (fuel : Nat) :
    ∀ (file : List Byte) (E E' : editorConfig), openLoop fuel file E = some E' →
      E'.cx = E.cx ∧ E'.cy = E.cy ∧ E'.rowoff = E.rowoff ∧ E'.coloff = E.coloff := by
  induction fuel with
  | zero =>
    intro file E E' h
    simp [openLoop] at h
  | succ n ih =>
    intro file E E' h
    unfold openLoop at h
    split at h
    · injection h with h
      rw [← h]
      exact ⟨rfl, rfl, rfl, rfl⟩
    · exact ih _ (editorInsertRow E E.numrows (stripLineEnd _)) E' h

theorem editorOpen_view (E E' : editorConfig) (filename file : List Byte)
    (h : editorOpen E filename file = some E') :
    E'.cx = E.cx ∧ E'.cy = E.cy ∧ E'.rowoff = E.rowoff ∧ E'.coloff = E.coloff := by
  unfold editorOpen at h
  simp only [] at h
  split at h
  · exact absurd h (by simp)
  · rename_i E1 h1
    injection h with h
    rw [← h]
    exact openLoop_view _ _ { E with filename := some filename } E1 h1

theorem cursorValid_origin (E : editorConfig) (hcx : E.cx = 0) (hcy : E.cy = 0) :
    cursorValid E := by
  refine ⟨by omega, ?_, by omega, ?_⟩
  · unfold editorConfig.numrows
    omega
  · rw [hcx]
    exact rowlen_nonneg _ _

theorem draw_cycle_nonneg (E E2 : editorConfig) (keys : List Int) (h : cursorValid E)
    (hro : 0 ≤ E.rowoff) (hco : 0 ≤ E.coloff)
    (hsafe : ∀ (ks : List Int) (E1 : editorConfig), ks <+: keys →
      mainLoopRun ks E = some E1 → scrollInRange E1)
    (he : mainLoopRun keys E = some E2) :
    0 ≤ (editorRefreshScreen E2).1.rx ∧ 0 ≤ (editorRefreshScreen E2).1.rowoff ∧
    0 ≤ (editorRefreshScreen E2).1.coloff := by
  obtain ⟨h1, h2, h3⟩ := mainLoopRun_invariant keys E h hro hco hsafe E2 he
  exact editorScroll_nonneg _ h2 h3 h1.1 (hsafe keys E2 List.prefix_rfl he)

theorem forall_eq_some_of_get {α : Type} (o : Option α) (p : α → Prop)
    (h : o.isSome = true) (hp : p (o.get h)) : ∀ b : α, o = some b → p b := by
  intro b hb
  subst hb
  exact hp

theorem sampleKeys_inRange (ks : List Int) (E1 : editorConfig) (hp : ks <+: sampleKeys)
    (he : mainLoopRun ks (initEditor 4 30) = some E1) : scrollInRange E1 := by
  have hks : ks = [] ∨ ks = [13] ∨ ks = [13, 120] ∨ ks = [13, 120, BACKSPACE] := by
    unfold sampleKeys at hp
    rcases List.prefix_cons_iff.mp hp with h | ⟨t1, h1, hp1⟩
    · exact Or.inl h
    rcases List.prefix_cons_iff.mp hp1 with h | ⟨t2, h2, hp2⟩
    · exact Or.inr (Or.inl (by rw [h1, h]))
    rcases List.prefix_cons_iff.mp hp2 with h | ⟨t3, h3, hp3⟩
    · exact Or.inr (Or.inr (Or.inl (by rw [h1, h2, h])))
    · rw [List.prefix_nil] at hp3
      exact Or.inr (Or.inr (Or.inr (by rw [h1, h2, h3, hp3])))
  rcases hks with h | h | h | h
  · subst h
    exact forall_eq_some_of_get _ _ (by decide) (by decide) E1 he
  · subst h
    exact forall_eq_some_of_get _ _ (by decide) (by decide) E1 he
  · subst h
    exact forall_eq_some_of_get _ _ (by decide) (by decide) E1 he
  · subst h
    exact forall_eq_some_of_get _ _ (by decide) (by decide) E1 he

/-! ### The theorems at sample states -/

theorem render_cache_consistent_except_split_witness :
    (rowsConsistent sampleTrailingEmpty ∧ cursorValid sampleTrailingEmpty) ∧
    rowsConsistent (editorInsertRow sampleTrailingEmpty 1 [TAB]) ∧
    rowsConsistent (editorDelRow sampleTrailingEmpty 0) ∧
    rowsConsistent (editorRowInsertChar sampleTrailingEmpty 0 1 TAB) ∧
    rowsConsistent (editorRowDelChar sampleTrailingEmpty 0 0) ∧
    rowsConsistent (editorInsertChar sampleTrailingEmpty TAB) ∧
    rowsConsistent (editorDelChar sampleTrailingEmpty) ∧
    (∃ E1 : editorConfig, editorInsertNewline sampleTrailingEmpty = some E1 ∧
      rowsConsistent E1) :=
  have h := render_cache_consistent_except_split sampleTrailingEmpty (by decide) (by decide)
  ⟨by decide, h.1.1 1 [TAB] (by decide) (by decide), h.1.2.1 0, h.1.2.2.1 0 1 TAB (by decide),
    h.1.2.2.2.1 0 0 (by decide), h.1.2.2.2.2.1 TAB, h.1.2.2.2.2.2, h.2.1.1 (by decide)⟩

theorem insert_then_delete_identity_witness :
    (sampleState.row[2]? = some ⟨[TAB, 120], [SPACE, SPACE, SPACE, SPACE, 120], 5⟩ ∧
      (0 : Int) ≤ 1 ∧ (1 : Int) ≤ erow.len ⟨[TAB, 120], [SPACE, SPACE, SPACE, SPACE, 120], 5⟩ ∧
      erow.consistent ⟨[TAB, 120], [SPACE, SPACE, SPACE, SPACE, 120], 5⟩) ∧
    ∃ row', (editorRowDelChar (editorRowInsertChar sampleState 2 1 TAB) 2 1).row[2]? = some row' ∧
      row'.chars = [TAB, 120] ∧ row'.len = 2 ∧
      row'.render = [SPACE, SPACE, SPACE, SPACE, 120] ∧ row'.rlen = 5 ∧
      (editorRowDelChar (editorRowInsertChar sampleState 2 1 TAB) 2 1).row = sampleState.row := by
  refine ⟨by decide, ?_⟩
  obtain ⟨row', h1, h2, h3, h4⟩ := insert_then_delete_identity sampleState 2
    ⟨[TAB, 120], [SPACE, SPACE, SPACE, SPACE, 120], 5⟩ 1 TAB (by decide) (by decide) (by decide)
  obtain ⟨h5, h6, h7⟩ := h4 (by decide)
  exact ⟨row', h1, h2, h3, h5, h6, h7⟩

theorem editorRowInsertChar_clamps_witness :
    sampleState.row[0]? = some ⟨[97, TAB, 98], [97, SPACE, SPACE, SPACE, 98], 5⟩ ∧
    ∃ row', (editorRowInsertChar sampleState 0 (-7) 120).row[0]? = some row' ∧
      row'.chars = [97, TAB, 98, 120] ∧ row'.len = 3 + 1 ∧
      (editorRowInsertChar sampleState 0 (-7) 120).dirty = 1 :=
  ⟨by decide, editorRowInsertChar_clamps sampleState 0
    ⟨[97, TAB, 98], [97, SPACE, SPACE, SPACE, 98], 5⟩ (-7) 120 (by decide)⟩

theorem editorRowDelChar_spec_witness :
    (sampleState.row[0]? = some ⟨[97, TAB, 98], [97, SPACE, SPACE, SPACE, 98], 5⟩ ∧
      ((3 : Int) < 0 ∨ (3 : Int) ≥ erow.len ⟨[97, TAB, 98], [97, SPACE, SPACE, SPACE, 98], 5⟩) ∧
      (0 : Int) ≤ 1 ∧ (1 : Int) < erow.len ⟨[97, TAB, 98], [97, SPACE, SPACE, SPACE, 98], 5⟩) ∧
    editorRowDelChar sampleState 0 3 = sampleState ∧
    ∃ row', (editorRowDelChar sampleState 0 1).row[0]? = some row' ∧
      row'.chars = [97, 98] ∧ row'.len = 3 - 1 ∧
      (editorRowDelChar sampleState 0 1).dirty = 1 :=
  have h := editorRowDelChar_spec sampleState 0
    ⟨[97, TAB, 98], [97, SPACE, SPACE, SPACE, 98], 5⟩
  ⟨by decide, (h 3 (by decide)).1 (by decide), (h 1 (by decide)).2 (by decide) (by decide)⟩

theorem editorInsertRow_spec_witness :
    ((0 : Int) ≤ 1 ∧ (1 : Int) ≤ sampleState.numrows) ∧
    ∃ newrow : erow, newrow.chars = [TAB] ∧ newrow.consistent ∧
      (editorInsertRow sampleState 1 [TAB]).row =
        sampleState.row.take 1 ++ newrow :: sampleState.row.drop 1 ∧
      (editorInsertRow sampleState 1 [TAB]).numrows = sampleState.numrows + 1 ∧
      (editorInsertRow sampleState 1 [TAB]).dirty = 1 :=
  ⟨by decide, editorInsertRow_spec sampleState 1 [TAB] (by decide) (by decide)⟩

theorem editorDelRow_spec_witness :
    (((5 : Int) < 0 ∨ (5 : Int) ≥ sampleState.numrows) ∧
      (0 : Int) ≤ 1 ∧ (1 : Int) < sampleState.numrows) ∧
    editorDelRow sampleState 5 = sampleState ∧
    ((editorDelRow sampleState 1).row = sampleState.row.take 1 ++ sampleState.row.drop 2 ∧
      (editorDelRow sampleState 1).numrows = sampleState.numrows - 1 ∧
      (editorDelRow sampleState 1).dirty = 1) :=
  ⟨by decide, (editorDelRow_spec sampleState 5).1 (by decide),
    (editorDelRow_spec sampleState 1).2 (by decide) (by decide)⟩

theorem cursor_range_invariant_except_split_witness :
    cursorValid sampleTrailingEmpty ∧
    cursorValid (initEditor 24 80) ∧
    (cursorValid (editorMoveCursor sampleTrailingEmpty ARROW_LEFT) ∧
      cursorValid (editorMoveCursor sampleTrailingEmpty ARROW_RIGHT) ∧
      cursorValid (editorMoveCursor sampleTrailingEmpty ARROW_UP) ∧
      cursorValid (editorMoveCursor sampleTrailingEmpty ARROW_DOWN)) ∧
    (cursorValid (editorInsertChar sampleTrailingEmpty 120) ∧
      cursorValid (editorDelChar sampleTrailingEmpty)) ∧
    (∃ E1 : editorConfig, mainLoopKey sampleTrailingEmpty 13 = some E1) ∧
    (∃ E1 : editorConfig, mainLoopKey sampleTrailingEmpty PAGE_DOWN = some E1) ∧
    cursorValid (editorScroll sampleTrailingEmpty) :=
  have h := cursor_range_invariant_except_split sampleTrailingEmpty (by decide)
  ⟨by decide, h.1 24 80, h.2.1, ⟨h.2.2.1.1 120, h.2.2.1.2.1⟩, h.2.2.2.2.1 13 (Or.inr (by decide)),
    h.2.2.2.2.1 PAGE_DOWN (Or.inl (by decide)), h.2.2.2.2.2.1⟩

theorem enter_then_backspace_undefined_witness :
    ((0 : Int) ≤ sampleTrailingEmpty.cy ∧
      sampleTrailingEmpty.row[sampleTrailingEmpty.cy.toNat]? = some ⟨[97], [97], 1⟩ ∧
      0 ≤ sampleTrailingEmpty.cx ∧ sampleTrailingEmpty.cx ≤ erow.len ⟨[97], [97], 1⟩ ∧
      sampleTrailingEmpty.cx = 0) ∧
    ∃ E1 : editorConfig, editorInsertNewline sampleTrailingEmpty = some E1 ∧
      (editorDelChar E1).row.map erow.chars = sampleTrailingEmpty.row.map erow.chars ∧
      (editorDelChar E1).numrows = sampleTrailingEmpty.numrows ∧
      (editorDelChar E1).cx = sampleTrailingEmpty.cx ∧
      (editorDelChar E1).cy = sampleTrailingEmpty.cy :=
  ⟨by decide, (enter_then_backspace_undefined sampleTrailingEmpty ⟨[97], [97], 1⟩ (by decide)
    (by decide) (by decide) (by decide)).1 (by decide)⟩

theorem pageDown_clamps_witness :
    (cursorValid sampleFiveRows ∧ 0 ≤ sampleFiveRows.screenrows) ∧
    (∃ E1 : editorConfig, mainLoopKey sampleFiveRows PAGE_DOWN = some E1 ∧
      E1.cy = min (sampleFiveRows.cy + sampleFiveRows.screenrows) sampleFiveRows.numrows) :=
  ⟨by decide, (pageDown_clamps sampleFiveRows (by decide) (by decide)).1⟩

theorem editorMoveCursor_horizontal_witness :
    (cursorValid sampleState ∧ 0 < sampleState.cx ∧ sampleState.cy < sampleState.numrows ∧
      sampleState.cx < sampleState.rowlen sampleState.cy) ∧
    ((editorMoveCursor sampleState ARROW_LEFT).cx = sampleState.cx - 1 ∧
      (editorMoveCursor sampleState ARROW_LEFT).cy = sampleState.cy) ∧
    ((editorMoveCursor sampleState ARROW_RIGHT).cx = sampleState.cx + 1 ∧
      (editorMoveCursor sampleState ARROW_RIGHT).cy = sampleState.cy) ∧
    (cursorValid (initEditor 24 80) ∧ (initEditor 24 80).cx = 0 ∧ (initEditor 24 80).cy = 0 ∧
      (initEditor 24 80).cy = (initEditor 24 80).numrows) ∧
    editorMoveCursor (initEditor 24 80) ARROW_LEFT = initEditor 24 80 ∧
    editorMoveCursor (initEditor 24 80) ARROW_RIGHT = initEditor 24 80 :=
  have h := editorMoveCursor_horizontal sampleState (by decide)
  have h0 := editorMoveCursor_horizontal (initEditor 24 80) (by decide)
  ⟨by decide, h.1.1 (by decide), h.2.1.1 (by decide) (by decide), by decide,
    h0.1.2.2 (by decide) (by decide), h0.2.1.2.2 (by decide)⟩

theorem editorMoveCursor_vertical_witness :
    ((0 : Int) ≤ sampleState.cy ∧ sampleState.cy ≤ sampleState.numrows ∧ 0 ≤ sampleState.cx) ∧
    ((editorMoveCursor sampleState ARROW_UP).cy = max (sampleState.cy - 1) 0 ∧
      (editorMoveCursor sampleState ARROW_UP).cx =
        min sampleState.cx (sampleState.rowlen (max (sampleState.cy - 1) 0)) ∧
      (editorMoveCursor sampleState ARROW_UP).row = sampleState.row) ∧
    ((editorMoveCursor sampleState ARROW_DOWN).cy = min (sampleState.cy + 1) sampleState.numrows ∧
      (editorMoveCursor sampleState ARROW_DOWN).cx =
        min sampleState.cx (sampleState.rowlen (min (sampleState.cy + 1) sampleState.numrows)) ∧
      (editorMoveCursor sampleState ARROW_DOWN).row = sampleState.row) :=
  ⟨by decide, editorMoveCursor_vertical sampleState (by decide) (by decide) (by decide)⟩

theorem editorInsertNewline_split_undefined_witness :
    ((0 : Int) ≤ sampleTrailingEmpty.cy ∧
      sampleTrailingEmpty.row[sampleTrailingEmpty.cy.toNat]? = some ⟨[97], [97], 1⟩ ∧
      0 ≤ sampleTrailingEmpty.cx ∧ sampleTrailingEmpty.cx ≤ erow.len ⟨[97], [97], 1⟩ ∧
      sampleTrailingEmpty.cx = 0) ∧
    ∃ (E1 : editorConfig) (first second : erow),
      editorInsertNewline sampleTrailingEmpty = some E1 ∧
      first.chars = [] ∧ second.chars = [97] ∧
      E1.row = sampleTrailingEmpty.row.take 0 ++ first :: second ::
        sampleTrailingEmpty.row.drop 1 ∧
      E1.numrows = sampleTrailingEmpty.numrows + 1 ∧ E1.cx = 0 ∧
      E1.cy = sampleTrailingEmpty.cy + 1 ∧ E1.dirty = 1 :=
  ⟨by decide, (editorInsertNewline_split_undefined sampleTrailingEmpty ⟨[97], [97], 1⟩
    (by decide) (by decide) (by decide) (by decide)).1 (by decide)⟩

/-- C19, counterexample: in a window of `INT_MAX` rows and columns with both
offsets 1 and the cursor at `(cy, rx) = (1, 1)`, the cursor is inside the
visible range on both axes, yet `editorScroll` moves both offsets, to
`-2147483645`: the sums `rowoff + screenrows` and `coloff + screencols`
overflow. -/
theorem editorScroll_minimal_counterexample :
    (1 ≤ sampleHugeWindow.screenrows ∧ 1 ≤ sampleHugeWindow.screencols) ∧
    (sampleHugeWindow.rowoff ≤ sampleHugeWindow.cy ∧
      sampleHugeWindow.cy < sampleHugeWindow.rowoff + sampleHugeWindow.screenrows) ∧
    (sampleHugeWindow.coloff ≤ (editorScroll sampleHugeWindow).rx ∧
      (editorScroll sampleHugeWindow).rx <
        sampleHugeWindow.coloff + sampleHugeWindow.screencols) ∧
    (editorScroll sampleHugeWindow).rowoff ≠ sampleHugeWindow.rowoff ∧
    (editorScroll sampleHugeWindow).coloff ≠ sampleHugeWindow.coloff ∧
    (editorScroll sampleHugeWindow).rowoff = -2147483645 ∧
    (editorScroll sampleHugeWindow).coloff = -2147483645 := by
  decide

theorem editorScroll_minimal_witness :
    (1 ≤ sampleState.screenrows ∧ 1 ≤ sampleState.screencols ∧
      INT_MIN ≤ sampleState.rowoff ∧
      sampleState.rowoff + sampleState.screenrows ≤ INT_MAX ∧
      sampleState.coloff + sampleState.screencols ≤ INT_MAX ∧
      sampleState.cy < sampleState.rowoff ∧
      (editorScroll sampleState).rx < sampleState.coloff ∧
      sampleState.cy < 0 + sampleState.screenrows) ∧
    (editorScroll sampleState).rowoff = sampleState.cy ∧
    |(editorScroll sampleState).rowoff - sampleState.rowoff| ≤ |0 - sampleState.rowoff| ∧
    (editorScroll sampleState).coloff = (editorScroll sampleState).rx ∧
    ((editorScroll (editorScroll sampleState)).rowoff = (editorScroll sampleState).rowoff ∧
      (editorScroll (editorScroll sampleState)).coloff = (editorScroll sampleState).coloff) :=
  have h := editorScroll_minimal sampleState (by decide) (by decide) (by decide) (by decide)
    (by decide)
  ⟨by decide, h.1.2.1 (by decide), h.1.2.2.2 0 (by decide) (by decide),
    h.2.1.2.1 (by decide), h.2.2⟩

end Kilo
